import Mathlib

/-!
Verification development for the identifier-normalization and score-lookup
subsystem of the uvt-scholarly repository.

The Python sources are shallowly embedded:
  - strings are Lean strings (inputs relevant to the claims are ASCII);
  - Python floats carrying journal scores are modelled as rationals, since
    every claim about scores concerns only order and equality comparisons;
  - functions that can raise are modelled with Except;
  - the sqlite score store is modelled as a list of rows, and queries as
    filters/folds that mirror the SQL statements in the source.
-/

namespace UvtScholarly

/-! ### ASCII string helpers

Models of Python str.upper / str.lower restricted to ASCII letters, and of
str.strip (the inputs exercised by the claims are ASCII, where Lean's
String.trim agrees with Python's strip). -/

/-- ASCII uppercase of one character. -/
def asciiUpperChar (c : Char) : Char :=
  if 'a' ≤ c ∧ c ≤ 'z' then Char.ofNat (c.toNat - 32) else c

/-- ASCII lowercase of one character, as in publication.py `_lowercase_ascii`. -/
def asciiLowerChar (c : Char) : Char :=
  if 'A' ≤ c ∧ c ≤ 'Z' then Char.ofNat (c.toNat + 32) else c

/-- Python `s.upper()` on ASCII text. -/
def asciiUpper (s : String) : String := String.mk (s.toList.map asciiUpperChar)

/-- publication.py `_lowercase_ascii`: lowercases ASCII letters only. -/
def lowercase_ascii (s : String) : String := String.mk (s.toList.map asciiLowerChar)

/-- The characters Python's `str.strip()` removes. -/
def isPySpace (c : Char) : Bool :=
  c = ' ' ∨ c = '\t' ∨ c = '\n' ∨ c = '\r' ∨ c = '\x0b' ∨ c = '\x0c'

/-- Python `s.strip()`. -/
def pyStrip (s : String) : String :=
  String.mk (((s.toList.dropWhile isPySpace).reverse.dropWhile isPySpace).reverse)

/-- Split a character list at the first occurrence of `sep`
(Python `s.split(sep, maxsplit=1)` when `sep` is known to occur). -/
def splitFirst (sep : Char) : List Char → List Char × List Char
  | [] => ([], [])
  | c :: cs =>
      if c = sep then ([], cs)
      else
        let p := splitFirst sep cs
        (c :: p.1, p.2)

/-- Python `s.split(sep)` without maxsplit. -/
def splitAll (sep : Char) : List Char → List (List Char)
  | [] => [[]]
  | c :: cs =>
      if c = sep then [] :: splitAll sep cs
      else
        match splitAll sep cs with
        | h :: t => (c :: h) :: t
        | [] => [[c]]

/-! ### ISSN (publication.py) -/

/-- publication.py `ISSN`: the two 4-character groups. -/
structure ISSN where
  part0 : String
  part1 : String
deriving DecidableEq, Repr

/-- `ISSN.__str__`: canonical `NNNN-NNNC` form. -/
def ISSN.str (i : ISSN) : String := i.part0 ++ "-" ++ i.part1

/-- publication.py `ISSN.from_string`: requires an embedded dash, exact
9-character length and 4+4 parts; raises (here: `.error`) otherwise. -/
def ISSN.from_string (issn : String) : Except String ISSN :=
  if ¬ issn.toList.contains '-' then
    .error "ISSN missing dash (expected NNNN-NNNC)"
  else if issn.toList.length ≠ 9 then
    .error "invalid ISSN length (expected NNNN-NNNC)"
  else
    let p := splitFirst '-' issn.toList
    if p.1.length ≠ 4 ∨ p.2.length ≠ 4 then
      .error "invalid ISSN part size (expected NNNN-NNNC)"
    else
      .ok ⟨String.mk p.1, String.mk p.2⟩

/-- publication.py `ISSN.is_valid`: the mod-11 weighted checksum over the
first seven digits with weights 8..2, check character in 0-9 or X. -/
def ISSN.is_valid (i : ISSN) : Bool :=
  let issn := (i.part0 ++ i.part1).toList
  if issn.length ≠ 8 then false
  else if ¬ (issn.take 7).all Char.isDigit then false
  else
    let total := ((issn.take 7).zipWith
      (fun c w => (c.toNat - '0'.toNat) * w) [8, 7, 6, 5, 4, 3, 2]).sum
    let check := 11 - total % 11
    let expected : Char :=
      if check = 11 then '0'
      else if check = 10 then 'X'
      else Char.ofNat ('0'.toNat + check)
    issn.getLast? = some expected

/-- uefiscdi/common.py `is_valid_issn` on a string argument: parse failures
are caught and reported as `false`, otherwise the checksum is checked. -/
def is_valid_issn (text : String) : Bool :=
  match ISSN.from_string text with
  | .error _ => false
  | .ok i => i.is_valid

/-! ### DOI (publication.py) -/

/-- publication.py `DOI`: namespace (`nspace` here, since `namespace` is a
Lean keyword), 4-digit registrant and free-form item suffix. -/
structure DOI where
  nspace : String
  registrant : String
  item : String
deriving DecidableEq, Repr

/-- `DOI.__eq__`: namespace and registrant compared exactly, the item suffix
compared after ASCII lowercasing. -/
def DOI.eqPy (a b : DOI) : Bool :=
  a.nspace == b.nspace && a.registrant == b.registrant &&
    lowercase_ascii a.item == lowercase_ascii b.item

/-- `DOI.__hash__` hashes the tuple `(namespace, registrant,
_lowercase_ascii(item))`; the tuple itself stands in for the hash value. -/
def DOI.hashKey (d : DOI) : String × String × String :=
  (d.nspace, d.registrant, lowercase_ascii d.item)

/-- publication.py `DOI.from_string`: splits `prefix/suffix`, requires the
prefix to be `10.NNNN`, and lowercases ASCII letters of the suffix at parse
time to establish the canonical storage form. -/
def DOI.from_string (doi : String) : Except String DOI :=
  if ¬ doi.toList.contains '/' then
    .error "DOI has a form prefix-slash-suffix"
  else
    let p := splitFirst '/' doi.toList
    if ¬ p.1.contains '.' then
      .error "DOI prefix must have a form 10.NNNN"
    else
      match splitAll '.' p.1 with
      | [ns, reg] =>
          if String.mk ns = "10" ∧ reg.length = 4 ∧ reg.all Char.isDigit then
            .ok ⟨String.mk ns, String.mk reg, lowercase_ascii (String.mk p.2)⟩
          else .error "DOI prefix must have a form 10.NNNN"
      | _ => .error "DOI prefix unpacks into namespace and registrant"

/-! ### UEFISCDI helpers (uefiscdi/common.py) -/

/-- common.py `EMPTY_SCORE`: score cells treated as "no published score". -/
def EMPTY_SCORE : List String := ["", "N/A"]

/-- Numeric value of a (non-empty) digit list. -/
def digitsToNat (cs : List Char) : Nat :=
  cs.foldl (fun n c => 10 * n + (c.toNat - '0'.toNat)) 0

/-- Exponent part of the `float()` model below. -/
def pyFloatExp (m : ℚ) (cs : List Char) : Except String ℚ :=
  let sp : Int × List Char :=
    match cs with
    | '+' :: r => (1, r)
    | '-' :: r => (-1, r)
    | r => (1, r)
  if ¬ sp.2.isEmpty ∧ sp.2.all Char.isDigit then
    .ok (m * (10 : ℚ) ^ (sp.1 * (digitsToNat sp.2 : Int)))
  else .error "could not convert string to float"

/-- Model of Python `float(str)` on finite decimal and exponent notation
(the only numeric forms occurring in the parsed spreadsheets); other inputs
raise a ValueError (here: `.error`). -/
def pyFloat (s : String) : Except String ℚ :=
  let cs0 := (pyStrip s).toList
  let sp : ℚ × List Char :=
    match cs0 with
    | '+' :: r => (1, r)
    | '-' :: r => (-1, r)
    | r => (1, r)
  let ip := sp.2.takeWhile Char.isDigit
  let rest := sp.2.dropWhile Char.isDigit
  match rest with
  | [] =>
      if ip.isEmpty then .error "could not convert string to float"
      else .ok (sp.1 * (digitsToNat ip : ℚ))
  | '.' :: r2 =>
      let fp := r2.takeWhile Char.isDigit
      let rest2 := r2.dropWhile Char.isDigit
      if ip.isEmpty ∧ fp.isEmpty then .error "could not convert string to float"
      else
        let m : ℚ := sp.1 * ((digitsToNat ip : ℚ) + (digitsToNat fp : ℚ) / (10 : ℚ) ^ fp.length)
        match rest2 with
        | [] => .ok m
        | 'e' :: r3 => pyFloatExp m r3
        | 'E' :: r3 => pyFloatExp m r3
        | _ => .error "could not convert string to float"
  | 'e' :: r3 =>
      if ip.isEmpty then .error "could not convert string to float"
      else pyFloatExp (sp.1 * (digitsToNat ip : ℚ)) r3
  | 'E' :: r3 =>
      if ip.isEmpty then .error "could not convert string to float"
      else pyFloatExp (sp.1 * (digitsToNat ip : ℚ)) r3
  | _ => .error "could not convert string to float"

/-- common.py `to_float` (at its default `default=0.0`, the value used at
every call site): a stripped, upper-cased cell equal to the empty string or
`N/A` yields the default score 0.0, anything else is parsed by `float`. -/
def to_float (value : String) : Except String ℚ :=
  let v := asciiUpper (pyStrip value)
  if EMPTY_SCORE.contains v then .ok 0
  else pyFloat v

/-- common.py `EMPTY_ISSN`: vendor spellings of "no identifier". -/
def EMPTY_ISSN : List String := ["0", "N/A", "****-****"]

/-- common.py `normalize_issn`: empty markers map to no identifier, anything
else must parse as an ISSN (raising, here `.error`, otherwise). -/
def normalize_issn (issn : String) : Except String (Option ISSN) :=
  let i := asciiUpper (pyStrip issn)
  if EMPTY_ISSN.contains i then .ok none
  else (ISSN.from_string i).map some

/-- ris.py `RIS_INCORRECT_ISSN`: the curated vendor-typo correction table,
kept verbatim in the file's order. -/
def RIS_INCORRECT_ISSN : List (String × String) :=
  [("2150-0136", "2150-136X"),
   ("758-7468", "1758-7468"),
   ("1873-5294", "1873-4294"),
   ("2016-8261", "2046-8261"),
   ("2062-2916", "2052-2916"),
   ("2041-1975", "2041-2975"),
   ("0030-211X", "0300-211X"),
   ("2332-6505", "2332-6506"),
   ("2254-8854", "2224-8854"),
   ("1929-7291", "1939-7291")]

/-- Python `table.get(key, key)` on the correction tables. -/
def tableGet (t : List (String × String)) (k : String) : String :=
  match t.find? (fun p => p.1 == k) with
  | some p => p.2
  | none => k

/-! ### Score records (common.py Score, ris.py, rif.py, ais.py) -/

/-- common.py `Edition`: the four citation indices. -/
inductive Edition
  | AHCI
  | ESCI
  | SCIE
  | SSCI
deriving DecidableEq, Repr

/-- publication.py `Category`: a category name with an optional sub-field. -/
structure Category where
  name : String
  field : Option String
deriving DecidableEq, Repr

/-- ris.py `RelativeInfluenceScore`. -/
structure RelativeInfluenceScore where
  journal : String
  issn : Option ISSN
  eissn : Option ISSN
  score : ℚ
deriving DecidableEq, Repr

/-- ris.py `RelativeInfluenceScore.is_valid`: unlike the base predicate, it
additionally rejects a record with neither ISSN nor eISSN. -/
def RelativeInfluenceScore.is_valid (r : RelativeInfluenceScore) : Bool :=
  if r.issn.any (fun i => ! i.is_valid) then false
  else if r.eissn.any (fun i => ! i.is_valid) then false
  else if r.journal = "" then false
  else if r.issn = none ∧ r.eissn = none then false
  else if r.score < 0 then false
  else true

/-- ris.py `RelativeInfluenceScore.from_strings`: strips and upper-cases the
identifier cells, applies the correction table, normalizes the identifiers and
converts the score cell. -/
def RelativeInfluenceScore.from_strings (journal issn eissn score : String) :
    Except String RelativeInfluenceScore :=
  let i := asciiUpper (pyStrip issn)
  let e := asciiUpper (pyStrip eissn)
  match normalize_issn (tableGet RIS_INCORRECT_ISSN i) with
  | .error msg => .error msg
  | .ok oi =>
      match normalize_issn (tableGet RIS_INCORRECT_ISSN e) with
      | .error msg => .error msg
      | .ok oe =>
          match to_float score with
          | .error msg => .error msg
          | .ok sc => .ok ⟨pyStrip journal, oi, oe, sc⟩

/-- rif.py `RelativeImpactFactor` (fields of the common.py `Score` base). -/
structure RelativeImpactFactor where
  journal : String
  issn : Option ISSN
  eissn : Option ISSN
  score : ℚ
deriving DecidableEq, Repr

/-- common.py `Score.is_valid`, the predicate `RelativeImpactFactor`
inherits: present identifiers must pass the checksum, the journal name must be
non-empty and the score non-negative. There is no requirement that at least
one identifier be present. -/
def RelativeImpactFactor.is_valid (r : RelativeImpactFactor) : Bool :=
  if r.issn.any (fun i => ! i.is_valid) then false
  else if r.eissn.any (fun i => ! i.is_valid) then false
  else if r.journal = "" then false
  else if r.score < 0 then false
  else true

/-- ais.py `ArticleInfluenceScore`: the common.py `Score` fields plus the
citation edition and the subject category. -/
structure ArticleInfluenceScore where
  journal : String
  issn : Option ISSN
  eissn : Option ISSN
  score : ℚ
  edition : Edition
  category : Category
deriving DecidableEq, Repr

/-- common.py `Score.is_valid`, which `ArticleInfluenceScore` inherits
unchanged (no both-identifiers-absent check). -/
def ArticleInfluenceScore.is_valid (r : ArticleInfluenceScore) : Bool :=
  if r.issn.any (fun i => ! i.is_valid) then false
  else if r.eissn.any (fun i => ! i.is_valid) then false
  else if r.journal = "" then false
  else if r.score < 0 then false
  else true

/-- ais.py `ArticleInfluenceScore.__eq__`: identity is (issn, eissn, edition);
the category does not participate. -/
def ArticleInfluenceScore.eqPy (a b : ArticleInfluenceScore) : Bool :=
  a.issn == b.issn && a.eissn == b.eissn && a.edition == b.edition

/-- ais.py `ArticleInfluenceScore.__hash__` hashes the tuple
`(issn, eissn, category, edition)`; the tuple stands in for the hash value. -/
def ArticleInfluenceScore.hashKey (a : ArticleInfluenceScore) :
    Option ISSN × Option ISSN × Category × Edition :=
  (a.issn, a.eissn, a.category, a.edition)

/-! ### Deduplicating parse loop (common.py XLSXParser.parse and
ris.py RelativeInfluenceScoreParser.parse)

The row iteration common to both parse loops, over the per-row parse results:
`none` is the end-of-data terminator (structurally empty last cell), an
invalid record aborts the parse, and records are accumulated in a dict
modelled as an association list in insertion order. On a key collision the
stored value is replaced exactly when the stored score is smaller. The key
function is the dict-key match of each variant: the explicit
`(str(issn), str(eissn))` tuple for ris.py, and for the dict keyed by the
score objects themselves (common.py) the conjunction of `__hash__` agreement
and `__eq__`, since a Python dict only identifies keys whose hashes agree. -/

def dedupGo {α κ : Type} [DecidableEq κ] (key : α → κ) (sc : α → ℚ)
    (valid : α → Bool) :
    List (κ × α) → List (Option α) → Except String (List α)
  | acc, [] => .ok (acc.map (·.2))
  | acc, none :: _ => .ok (acc.map (·.2))
  | acc, some r :: rest =>
      if ¬ valid r then .error "score on row is not valid"
      else
        match acc.find? (fun p => decide (p.1 = key r)) with
        | some other =>
            if sc other.2 < sc r then
              dedupGo key sc valid
                (acc.map (fun p => if p.1 = key r then (p.1, r) else p)) rest
            else dedupGo key sc valid acc rest
        | none => dedupGo key sc valid (acc ++ [(key r, r)]) rest

/-- The shared dedup-and-validate loop, started from an empty dict. -/
def dedupParse {α κ : Type} [DecidableEq κ] (key : α → κ) (sc : α → ℚ)
    (valid : α → Bool) (rows : List (Option α)) : Except String (List α) :=
  dedupGo key sc valid [] rows

/-- The records a parse run actually processes: the per-row parse results
before the first end-of-data terminator. -/
def validPrefix {α : Type} (rows : List (Option α)) : List α :=
  (rows.takeWhile Option.isSome).filterMap id

/-- Python `str(x)` for an optional ISSN slot: `str(None)` is `"None"`. -/
def pyStrOptISSN : Option ISSN → String
  | none => "None"
  | some i => i.str

/-- ris.py dict key: the tuple `(str(score.issn), str(score.eissn))`. -/
def risKey (r : RelativeInfluenceScore) : String × String :=
  (pyStrOptISSN r.issn, pyStrOptISSN r.eissn)

/-- ris.py `RelativeInfluenceScoreParser.parse` over the per-row parse
results. -/
def RelativeInfluenceScoreParser.parse (rows : List (Option RelativeInfluenceScore)) :
    Except String (List RelativeInfluenceScore) :=
  dedupParse risKey (·.score) RelativeInfluenceScore.is_valid rows

/-- rif.py dict key: `Score.__hash__` and `Score.__eq__` agree on
`(issn, eissn)`, so that pair is the dict-key match. -/
def rifKey (r : RelativeImpactFactor) : Option ISSN × Option ISSN :=
  (r.issn, r.eissn)

/-- common.py `XLSXParser.parse` instantiated at `RelativeImpactFactor`. -/
def XLSXParser.parseRIF (rows : List (Option RelativeImpactFactor)) :
    Except String (List RelativeImpactFactor) :=
  dedupParse rifKey (·.score) RelativeImpactFactor.is_valid rows

/-- ais.py dict key: a Python dict identifies two keys when their hashes
agree and `__eq__` holds; for `ArticleInfluenceScore` the hash covers
`(issn, eissn, category, edition)` while `__eq__` covers
`(issn, eissn, edition)`, so the conjunction is the full four-tuple. -/
def aisDictKey (a : ArticleInfluenceScore) :
    Option ISSN × Option ISSN × Edition × Category :=
  (a.issn, a.eissn, a.edition, a.category)

/-- common.py `XLSXParser.parse` instantiated at `ArticleInfluenceScore`. -/
def XLSXParser.parseAIS (rows : List (Option ArticleInfluenceScore)) :
    Except String (List ArticleInfluenceScore) :=
  dedupParse aisDictKey (·.score) ArticleInfluenceScore.is_valid rows

/-! ### Score store (common.py Database, ris.py DB) -/

/-- The years keying common.py `UEFISCDI_DATABASE_URL` (the authoritative
year → source-URL table; the URL strings themselves play no role in any
claim). -/
def UEFISCDI_DATABASE_URL_YEARS : List Int := [2025, 2024, 2023, 2022, 2021, 2020]

/-- common.py `UEFISCDI_LATEST_YEAR = max(UEFISCDI_DATABASE_URL)`: the most
recent year present in the table above, not the wall-clock year. -/
def UEFISCDI_LATEST_YEAR : Int :=
  match UEFISCDI_DATABASE_URL_YEARS.max? with
  | some y => y
  | none => 0

/-- One stored row of a per-metric score table: the columns bound by
`Database.insert` (identifiers stored as their string form or NULL). The
AUTOINCREMENT id and the AIS-only edition/category columns do not participate
in the queries under scrutiny. -/
structure ScoreRow where
  year : Int
  journal : String
  issn : Option String
  eissn : Option String
  score : ℚ
deriving DecidableEq, Repr

/-- The row `Database.insert`/`DB.insert` stores for a RIS record:
`(year, r.journal, r.issns, r.eissns, r.score)`. -/
def scoreRowOfRIS (year : Int) (r : RelativeInfluenceScore) : ScoreRow :=
  ⟨year, r.journal, r.issn.map ISSN.str, r.eissn.map ISSN.str, r.score⟩

/-- SQL `issn = ? OR eissn = ?` with NULL semantics (a NULL column never
compares equal to a bound string). -/
def rowMatches (s : String) (r : ScoreRow) : Bool :=
  r.issn == some s || r.eissn == some s

/-- SQL `SELECT MAX(score) FROM t WHERE p`: NULL (here `none`) when no row
satisfies `p`. -/
def sqlMaxScore (db : List ScoreRow) (p : ScoreRow → Bool) : Option ℚ :=
  (db.filter p).foldl
    (fun acc r =>
      match acc with
      | none => some r.score
      | some m => some (max m r.score)) none

/-- common.py `Database.max_score_by_issn` (identically ris.py
`DB.max_score_by_issn`) on a string argument: a failed `is_valid_issn` check
raises (here `.error`) before any query runs; otherwise the SQL above
restricted by `year >= UEFISCDI_LATEST_YEAR - past`. -/
def Database.max_score_by_issn (db : List ScoreRow) (text : String)
    (past : Int) : Except String (Option ℚ) :=
  if ¬ is_valid_issn text then .error "not a valid ISSN"
  else
    .ok (sqlMaxScore db (fun r =>
      rowMatches text r && decide (UEFISCDI_LATEST_YEAR - past ≤ r.year)))

/-- The same query when called with an `ISSN` argument (as the enrichment
pipeline does): `is_valid_issn` then checks the checksum directly and the
query binds `str(text)`. -/
def Database.max_score_by_issn_of (db : List ScoreRow) (i : ISSN)
    (past : Int) : Except String (Option ℚ) :=
  if ¬ i.is_valid then .error "not a valid ISSN"
  else
    .ok (sqlMaxScore db (fun r =>
      rowMatches i.str r && decide (UEFISCDI_LATEST_YEAR - past ≤ r.year)))

/-- common.py `Database.find_by_issn` composed with the per-metric
`find_by_issn_impl` (rif.py 195-214, ais.py 317-340): identifier and year
validation first, then the first row matching the identifier at exactly the
given year, or no result. -/
def Database.find_by_issn (db : List ScoreRow) (text : String) (year : Int) :
    Except String (Option ScoreRow) :=
  if ¬ is_valid_issn text then .error "not a valid ISSN"
  else if ¬ UEFISCDI_DATABASE_URL_YEARS.contains year then .error "unsupported year"
  else .ok ((db.filter (fun r => rowMatches text r && r.year == year)).head?)

/-- Modelled from the words of claim C1, for comparison with
`Database.max_score_by_issn`: the maximum stored score among matching rows
over exactly the trailing `past` years ending at `UEFISCDI_LATEST_YEAR`,
i.e. rows with `latest - past < year ≤ latest`. -/
def claimTrailingWindowMax (db : List ScoreRow) (text : String)
    (past : Int) : Option ℚ :=
  ((db.filter (fun r =>
    rowMatches text r &&
      decide (UEFISCDI_LATEST_YEAR - past < r.year ∧
        r.year ≤ UEFISCDI_LATEST_YEAR))).map (·.score)).max?

/-! ### Enrichment pipeline (enrich.py) -/

/-- publication.py `Score` enumeration of score kinds (the spelling used by
enrich.py's dispatch: JIF, AIS, RIS, RIF). -/
inductive ScoreKind
  | JIF
  | AIS
  | RIS
  | RIF
deriving DecidableEq, Repr

/-- publication.py `Journal`: name plus the mapping of known scores (and
quartiles), the mappings modelled as insertion-ordered association lists
exactly as Python dicts behave. -/
structure Journal where
  name : String
  scores : List (ScoreKind × ℚ)
  quartile : List (ScoreKind × String)
deriving DecidableEq, Repr

/-- A citing publication as read by `add_cited_by`: the enrichment only ever
inspects its list of cited DOIs (the keys of `Publication.citations`, one
entry per distinct DOI) and appends the object opaquely, so it is modelled by
that list plus its repository identifier. -/
structure Citer where
  identifier : String
  citations : List DOI
deriving DecidableEq, Repr

/-- publication.py `Publication`, restricted to the fields the enrichment
pipeline reads or rewrites; the remaining fields (authors, title parts,
volume, pages, ...) ride along unchanged through `dataclasses.replace` and
are represented by `title`/`year`/`identifier`. -/
structure Publication where
  identifier : String
  title : String
  year : Int
  journal : Journal
  doi : Option DOI
  issn : Option ISSN
  eissn : Option ISSN
  cited_by : List Citer
deriving DecidableEq, Repr

/-- Python dict lookup `k in m` for the journal score map. -/
def dictContainsScore (m : List (ScoreKind × ℚ)) (k : ScoreKind) : Bool :=
  m.any (fun p => p.1 == k)

/-- Python `{**m, k: v}`: existing key keeps its position with the value
replaced, a new key is appended. -/
def dictInsertScore (m : List (ScoreKind × ℚ)) (k : ScoreKind) (v : ℚ) :
    List (ScoreKind × ℚ) :=
  if m.any (fun p => p.1 == k) then
    m.map (fun p => if p.1 == k then (p.1, v) else p)
  else m ++ [(k, v)]

/-- enrich.py `add_scores`, body of the inner per-publication loop for one
score kind: a publication already carrying the kind is appended as is; one
with no ISSN and no eISSN is logged and appended as is; otherwise the store
is queried with `max_score_by_issn` (which raises on an invalid identifier)
and the result, when present, is attached via copy-with-replacement. -/
def addScoreOne (db : List ScoreRow) (past : Int) (k : ScoreKind)
    (pub : Publication) : Except String Publication :=
  if dictContainsScore pub.journal.scores k then .ok pub
  else
    match pub.issn <|> pub.eissn with
    | none => .ok pub
    | some issn =>
        match Database.max_score_by_issn_of db issn past with
        | .error msg => .error msg
        | .ok (some v) =>
            .ok { pub with journal :=
              { pub.journal with scores := dictInsertScore pub.journal.scores k v } }
        | .ok none => .ok pub

/-- The result-list accumulation of a Python for-loop whose body can raise:
apply `f` left to right, collecting results, stopping at the first error. -/
def mapExcept {α β : Type} (f : α → Except String β) :
    List α → Except String (List β)
  | [] => .ok []
  | a :: as =>
      match f a with
      | .error msg => .error msg
      | .ok b =>
          match mapExcept f as with
          | .error msg => .error msg
          | .ok bs => .ok (b :: bs)

/-- enrich.py `add_scores`, one iteration of the outer per-kind loop: the
kind dispatch raises on an unsupported kind (`Score.JIF` has no database
class), then every publication of the original input list is processed. -/
def processKind (dbs : ScoreKind → List ScoreRow) (past : Int) (k : ScoreKind)
    (pubs : List Publication) : Except String (List Publication) :=
  if k = ScoreKind.JIF then .error "unsupported score type"
  else mapExcept (addScoreOne (dbs k) past k) pubs

/-- The outer loop of enrich.py `add_scores`: `result` is rebuilt from the
original `pubs` on every kind iteration, so only the final kind's pass is
returned; with an empty kind set the loop never runs and the trailing
`tuple(result)` raises a NameError. -/
def addScoresGo (dbs : ScoreKind → List ScoreRow) (past : Int)
    (pubs : List Publication) :
    List ScoreKind → Option (List Publication) → Except String (List Publication)
  | [], none => .error "NameError: name result is not defined"
  | [], some r => .ok r
  | k :: ks, _ =>
      match processKind dbs past k pubs with
      | .error msg => .error msg
      | .ok r => addScoresGo dbs past pubs ks (some r)

/-- enrich.py `add_scores`: `scores=None` short-circuits to the input; the
per-kind tables of the single database file are modelled as
`dbs : ScoreKind → List ScoreRow`; the requested kinds as a list in the
(deterministic) set iteration order. -/
def add_scores (dbs : ScoreKind → List ScoreRow) (past : Int)
    (kinds : Option (List ScoreKind)) (pubs : List Publication) :
    Except String (List Publication) :=
  match kinds with
  | none => .ok pubs
  | some ks => addScoresGo dbs past pubs ks none

/-- Insert into the DOI-keyed dict `{pub.doi: pub for pub in pubs ...}`:
a duplicate key (under `DOI.__eq__`) keeps its position and gets the new
value, a fresh key is appended. -/
def indexInsert (m : List (DOI × Publication)) (k : DOI) (v : Publication) :
    List (DOI × Publication) :=
  if m.any (fun p => DOI.eqPy p.1 k) then
    m.map (fun p => if DOI.eqPy p.1 k then (p.1, v) else p)
  else m ++ [(k, v)]

/-- `doi_to_pub.get(doi)`. -/
def indexGet (m : List (DOI × Publication)) (k : DOI) : Option Publication :=
  (m.find? (fun p => DOI.eqPy p.1 k)).map (·.2)

/-- `doi_to_pub[doi] = ...` for a key known to be present. -/
def indexSet (m : List (DOI × Publication)) (k : DOI) (v : Publication) :
    List (DOI × Publication) :=
  m.map (fun p => if DOI.eqPy p.1 k then (p.1, v) else p)

/-- One step of the dict comprehension building the DOI → candidate index:
a candidate with no DOI is skipped. -/
def indexAdd (m : List (DOI × Publication)) (pub : Publication) :
    List (DOI × Publication) :=
  match pub.doi with
  | none => m
  | some d => indexInsert m d pub

/-- enrich.py `add_cited_by`, first pass: the DOI → candidate index,
skipping candidates without a DOI. -/
def buildDoiIndex (pubs : List Publication) : List (DOI × Publication) :=
  pubs.foldl indexAdd []

/-- The body of the inner loop of `add_cited_by`: one cited DOI of one
citing publication; the matching candidate (if any) is rebuilt with the
citer appended to its `cited_by`. -/
def citeOne (cite : Citer) (m : List (DOI × Publication)) (d : DOI) :
    List (DOI × Publication) :=
  match indexGet m d with
  | some pub => indexSet m d { pub with cited_by := pub.cited_by ++ [cite] }
  | none => m

/-- enrich.py `add_cited_by`, second pass, one citing publication: every DOI
of its citation list is looked up in the index. -/
def citeStep (m : List (DOI × Publication)) (cite : Citer) :
    List (DOI × Publication) :=
  cite.citations.foldl (citeOne cite) m

/-- The citers accumulated on the candidate stored at index key `k0`: each
citing publication appears once per cited DOI matching `k0` (in the real
data the citation list of one citer holds distinct DOIs, so at most once). -/
def citersFor (k0 : DOI) (cs : List Citer) : List Citer :=
  (cs.map (fun c =>
    List.replicate (c.citations.countP (fun d => DOI.eqPy k0 d)) c)).flatten

/-- Proof-side abbreviation: a candidate with `n` copies of one citer
appended to its cited-by list. -/
def appendCited (cite : Citer) (n : Nat) (pub : Publication) : Publication :=
  { pub with cited_by := pub.cited_by ++ List.replicate n cite }

/-- Proof-side abbreviation: a candidate with a citer list appended to its
cited-by list. -/
def appendCiters (cs : List Citer) (pub : Publication) : Publication :=
  { pub with cited_by := pub.cited_by ++ cs }

/-- enrich.py `add_cited_by`: build the index from the candidates, thread it
through every citing publication, and return the dict values. -/
def add_cited_by (pubs : List Publication) (citations : List Citer) :
    List Publication :=
  (citations.foldl citeStep (buildDoiIndex pubs)).map (·.2)

/-! ### Downloader (utils.py download_file) -/

/-- What the HTTP stream does on a given run: a successful body, a
`httpx.ConnectError` after some bytes were already written, or a
`raise_for_status` failure. -/
inductive StreamOutcome
  | success (data : List Nat)
  | connectError (written : List Nat)
  | statusError (code : Nat)
deriving DecidableEq, Repr

/-- How utils.py `download_file` returns: normally, with a raised
`DownloadError`, or with an exception it does not catch. -/
inductive DownloadOutcome
  | ok
  | downloadError (url : String)
  | uncaught (code : Nat)
deriving DecidableEq, Repr

/-- utils.py `download_file` as a state transformer on the destination file
(`none` = absent, `some bytes` = present with that content). When the file
exists and `force` is not set the download is skipped. Otherwise the file is
opened for writing (created/truncated) before the HTTP stream is entered;
`httpx.ConnectError` is caught, the destination file is unlinked if it
exists and a `DownloadError` is raised; a `raise_for_status` failure
propagates uncaught with the (empty) file left behind; on success the body
is written. -/
def download_file (url : String) (file : Option (List Nat)) (force : Bool)
    (outcome : StreamOutcome) : Option (List Nat) × DownloadOutcome :=
  if ¬ force ∧ file.isSome then (file, .ok)
  else
    match outcome with
    | .success data => (some data, .ok)
    | .connectError _written => (none, .downloadError url)
    | .statusError code => (some [], .uncaught code)

end UvtScholarly

namespace UvtScholarly

/-- C5: DOI equality and hashing are case-insensitive on ASCII letters in the
item suffix only, with namespace and registrant compared exactly:
`DOI.from_string "10.1000/ABC"` equals `DOI.from_string "10.1000/abc"`, two
DOIs whose registrants differ never compare equal, equality holds exactly when
namespace and registrant agree literally and the suffixes agree after ASCII
lowercasing, and equal DOIs have equal hash keys. -/
theorem C5_doi_case_insensitive_suffix_equality :
    (∃ d1 d2, DOI.from_string "10.1000/ABC" = .ok d1 ∧
      DOI.from_string "10.1000/abc" = .ok d2 ∧ DOI.eqPy d1 d2 = true) ∧
    (∀ a b : DOI, a.registrant ≠ b.registrant → DOI.eqPy a b = false) ∧
    (∀ a b : DOI, DOI.eqPy a b = true ↔
      (a.nspace = b.nspace ∧ a.registrant = b.registrant ∧
        lowercase_ascii a.item = lowercase_ascii b.item)) ∧
    (∀ a b : DOI, DOI.eqPy a b = true → DOI.hashKey a = DOI.hashKey b) := by
  refine ⟨⟨⟨"10", "1000", "abc"⟩, ⟨"10", "1000", "abc"⟩, by rfl, by rfl, by rfl⟩,
    ?_, ?_, ?_⟩
  · intro a b hne
    simp only [DOI.eqPy, Bool.and_eq_false_iff]
    left; right
    simpa [beq_iff_eq] using hne
  · intro a b
    simp [DOI.eqPy, Bool.and_eq_true, beq_iff_eq, and_assoc]
  · intro a b h
    simp only [DOI.eqPy, Bool.and_eq_true, beq_iff_eq] at h
    simp [DOI.hashKey, h.1.1, h.1.2, h.2]

/-- Witness for C5: the registrant-difference part applied at a concrete
pair of DOIs. -/
theorem C5_doi_case_insensitive_suffix_equality_witness :
    DOI.eqPy ⟨"10", "1000", "x"⟩ ⟨"10", "1001", "x"⟩ = false :=
  C5_doi_case_insensitive_suffix_equality.2.1 ⟨"10", "1000", "x"⟩ ⟨"10", "1001", "x"⟩
    (by decide)

end UvtScholarly

namespace UvtScholarly

/-- C4 counterexample: the claim asserts that every metric variant's
`is_valid` rejects a record with neither ISSN nor eISSN. It fails for the RIF
and AIS variants, which inherit the base `Score.is_valid` of common.py
unchanged: a record with both identifiers absent, a non-empty journal name
and score 0 is accepted, and is not excluded from the parsed output. -/
theorem C4_counterexample :
    RelativeImpactFactor.is_valid ⟨"Acta Mathematica", none, none, 0⟩ = true ∧
    ArticleInfluenceScore.is_valid
      ⟨"Acta Mathematica", none, none, 0, .SCIE, ⟨"Mathematics", none⟩⟩ = true ∧
    XLSXParser.parseRIF [some ⟨"Acta Mathematica", none, none, 0⟩] =
      .ok [⟨"Acta Mathematica", none, none, 0⟩] := by
  refine ⟨by rfl, by rfl, by rfl⟩

/-- C4 amended: only the RIS variant's `is_valid` returns false whenever both
ISSN and eISSN are absent; the RIF and AIS variants use the inherited base
predicate, which accepts a record with both identifiers absent exactly when
the journal name is non-empty and the score is non-negative (so such records
are not excluded from their parsed output). -/
theorem C4_amended_validity :
    (∀ r : RelativeInfluenceScore, r.issn = none → r.eissn = none →
      r.is_valid = false) ∧
    (∀ r : RelativeImpactFactor, r.issn = none → r.eissn = none →
      (r.is_valid = true ↔ (r.journal ≠ "" ∧ 0 ≤ r.score))) ∧
    (∀ r : ArticleInfluenceScore, r.issn = none → r.eissn = none →
      (r.is_valid = true ↔ (r.journal ≠ "" ∧ 0 ≤ r.score))) := by
  refine ⟨?_, ?_, ?_⟩
  · intro r h1 h2
    simp [RelativeInfluenceScore.is_valid, h1, h2]
  · intro r h1 h2
    simp only [RelativeImpactFactor.is_valid, h1, h2, Option.any_none,
      Bool.false_eq_true, if_false]
    split_ifs with hj hs
    · simp [hj]
    · exact iff_of_false (by simp) (fun hco => absurd hs (not_lt.mpr hco.2))
    · simp [hj, not_lt.mp hs]
  · intro r h1 h2
    simp only [ArticleInfluenceScore.is_valid, h1, h2, Option.any_none,
      Bool.false_eq_true, if_false]
    split_ifs with hj hs
    · simp [hj]
    · exact iff_of_false (by simp) (fun hco => absurd hs (not_lt.mpr hco.2))
    · simp [hj, not_lt.mp hs]

/-- Witness for C4 amended: the RIS clause applied to a concrete record with
both identifiers absent. -/
theorem C4_amended_validity_witness :
    RelativeInfluenceScore.is_valid ⟨"Acta Mathematica", none, none, 1⟩ = false :=
  C4_amended_validity.1 ⟨"Acta Mathematica", none, none, 1⟩ rfl rfl

/-- C9: for `ArticleInfluenceScore`, `__eq__` compares (issn, eissn, edition)
while `__hash__` hashes (issn, eissn, category, edition). Two records that
differ only in the subject category therefore compare equal while their hash
inputs differ, violating the equal-implies-equal-hash contract the dict-based
deduplication in `XLSXParser.parse` depends on. -/
theorem C9_ais_eq_hash_inconsistent :
    ArticleInfluenceScore.eqPy
        ⟨"Acta Mathematica", some ⟨"2054", "4251"⟩, none, 1, .SCIE,
          ⟨"Mathematics", none⟩⟩
        ⟨"Acta Mathematica", some ⟨"2054", "4251"⟩, none, 1, .SCIE,
          ⟨"Physics", none⟩⟩ = true ∧
    ArticleInfluenceScore.hashKey
        ⟨"Acta Mathematica", some ⟨"2054", "4251"⟩, none, 1, .SCIE,
          ⟨"Mathematics", none⟩⟩ ≠
      ArticleInfluenceScore.hashKey
        ⟨"Acta Mathematica", some ⟨"2054", "4251"⟩, none, 1, .SCIE,
          ⟨"Physics", none⟩⟩ := by
  refine ⟨by rfl, by decide⟩

/-- C8: whenever `download_file` actually attempts the download (it is not
skipped because the destination already exists without `force`) and the run
fails with a connection error, the partially written destination file is
deleted and the typed `DownloadError` is raised; moreover on every run that
ends in a `DownloadError` the destination file is absent afterwards. -/
theorem C8_download_error_cleanup :
    (∀ (url : String) (file : Option (List Nat)) (force : Bool)
        (written : List Nat), (force = true ∨ file = none) →
      download_file url file force (.connectError written) =
        (none, .downloadError url)) ∧
    (∀ (url u2 : String) (file : Option (List Nat)) (force : Bool)
        (oc : StreamOutcome),
      (download_file url file force oc).2 = .downloadError u2 →
      (download_file url file force oc).1 = none) := by
  constructor
  · intro url file force written h
    rcases h with h | h <;> simp [download_file, h]
  · intro url u2 file force oc h
    simp only [download_file] at h ⊢
    by_cases hc : ¬ force = true ∧ file.isSome = true
    · rw [if_pos hc] at h
      simp at h
    · rw [if_neg hc] at h ⊢
      cases oc <;> simp_all

/-- Witness for C8: a connection failure on a fresh destination file. -/
theorem C8_download_error_cleanup_witness :
    download_file "https://uefiscdi.gov.ro/x.xlsx" none false
        (.connectError [80, 75]) =
      (none, .downloadError "https://uefiscdi.gov.ro/x.xlsx") :=
  C8_download_error_cleanup.1 "https://uefiscdi.gov.ro/x.xlsx" none false
    [80, 75] (Or.inr rfl)

end UvtScholarly

namespace UvtScholarly

/-- The SQL MAX fold started from a running maximum. -/
theorem sqlMaxScore_foldl_some (l : List ScoreRow) (m : ℚ) :
    l.foldl
      (fun acc r =>
        match acc with
        | none => some r.score
        | some m => some (max m r.score)) (some m) =
      some ((l.map (·.score)).foldl max m) := by
  induction l generalizing m with
  | nil => rfl
  | cons r t ih => simpa using ih (max m r.score)

/-- `sqlMaxScore` computes the maximum of the scores of the selected rows. -/
theorem sqlMaxScore_eq_max (db : List ScoreRow) (p : ScoreRow → Bool) :
    sqlMaxScore db p = ((db.filter p).map (·.score)).max? := by
  unfold sqlMaxScore
  cases hf : db.filter p with
  | nil => rfl
  | cons r t =>
      show (r :: t).foldl _ none = _
      have : (r :: t).foldl
          (fun acc x =>
            match acc with
            | none => some x.score
            | some m => some (max m x.score)) none =
          t.foldl
            (fun acc x =>
              match acc with
              | none => some x.score
              | some m => some (max m x.score)) (some r.score) := rfl
      rw [this, sqlMaxScore_foldl_some]
      rfl

/-- `max?` of a nonempty list is `none` iff the list is empty. -/
theorem max?_toNoneIff (l : List ℚ) : l.max? = none ↔ l = [] :=
  List.max?_eq_none_iff

/-- C6: `max_score_by_issn` and `find_by_issn` raise the format error on a
structurally invalid ISSN before the database is consulted (the outcome is
the same error for every database state), while a structurally valid ISSN
that matches no stored row (queried at a supported year, for the point
lookup) yields no result rather than an error. -/
theorem C6_invalid_issn_rejected_absent_is_none :
    (∀ (db db2 : List ScoreRow) (text : String) (year past : Int),
      is_valid_issn text = false →
      Database.find_by_issn db text year = .error "not a valid ISSN" ∧
      Database.max_score_by_issn db text past = .error "not a valid ISSN" ∧
      Database.find_by_issn db text year = Database.find_by_issn db2 text year ∧
      Database.max_score_by_issn db text past =
        Database.max_score_by_issn db2 text past) ∧
    (∀ (db : List ScoreRow) (text : String) (year past : Int),
      is_valid_issn text = true →
      UEFISCDI_DATABASE_URL_YEARS.contains year = true →
      (∀ r ∈ db, rowMatches text r = false) →
      Database.find_by_issn db text year = .ok none ∧
      Database.max_score_by_issn db text past = .ok none) := by
  constructor
  · intro db db2 text year past h
    refine ⟨?_, ?_, ?_, ?_⟩ <;>
      simp [Database.find_by_issn, Database.max_score_by_issn, h]
  · intro db text year past hv hy habs
    have hy2 : year ∈ UEFISCDI_DATABASE_URL_YEARS := by simpa using hy
    constructor
    · have hnil : db.filter (fun r => rowMatches text r && r.year == year) = [] := by
        rw [List.filter_eq_nil_iff]
        intro r hr
        simp [habs r hr]
      simp [Database.find_by_issn, hv, hy2, hnil]
    · have hnil : db.filter (fun r =>
          rowMatches text r && decide (UEFISCDI_LATEST_YEAR - past ≤ r.year)) = [] := by
        rw [List.filter_eq_nil_iff]
        intro r hr
        simp [habs r hr]
      simp only [Database.max_score_by_issn, hv, Bool.not_true, sqlMaxScore_eq_max,
        hnil, List.map_nil]
      rfl

/-- Witness for C6: the malformed-but-well-shaped identifier `1234-567X`
(checksum failure) is rejected by both queries on a concrete store. -/
theorem C6_invalid_issn_rejected_absent_is_none_witness :
    Database.find_by_issn [⟨2025, "Acta", some "2054-4251", none, 1⟩]
        "1234-567X" 2025 = .error "not a valid ISSN" :=
  (C6_invalid_issn_rejected_absent_is_none.1
    [⟨2025, "Acta", some "2054-4251", none, 1⟩] [] "1234-567X" 2025 5
    (by rfl)).1

/-- C1 counterexample: the claim reads the window as exactly the trailing
`past` years ending at the latest known year (2021..2025 for `past = 5`),
but the SQL filter is `year >= UEFISCDI_LATEST_YEAR - past`, which also
admits year 2020: on a store holding a single matching row from 2020 the
query returns its score while the claimed window holds no row at all. -/
theorem C1_counterexample :
    is_valid_issn "2054-4251" = true ∧
    Database.max_score_by_issn [⟨2020, "Acta", some "2054-4251", none, 7⟩]
        "2054-4251" 5 = .ok (some 7) ∧
    claimTrailingWindowMax [⟨2020, "Acta", some "2054-4251", none, 7⟩]
        "2054-4251" 5 = none := by
  refine ⟨by rfl, by rfl, by rfl⟩

/-- C1 amended: for a structurally valid identifier, `max_score_by_issn`
returns the maximum stored score among rows whose issn or eissn column equals
the identifier over all rows with `year ≥ UEFISCDI_LATEST_YEAR - past` — a
trailing window of `past + 1` years ending at the latest year of the
year→source-URL table (not the wall-clock year) — and returns no result
exactly when no such row exists. -/
theorem C1_amended_window_max (db : List ScoreRow) (text : String) (past : Int)
    (h : is_valid_issn text = true) :
    Database.max_score_by_issn db text past =
      .ok (((db.filter (fun r =>
        rowMatches text r &&
          decide (UEFISCDI_LATEST_YEAR - past ≤ r.year))).map (·.score)).max?) ∧
    (Database.max_score_by_issn db text past = .ok none ↔
      ∀ r ∈ db, ¬(rowMatches text r = true ∧
        UEFISCDI_LATEST_YEAR - past ≤ r.year)) := by
  have h1 : Database.max_score_by_issn db text past =
      .ok (((db.filter (fun r =>
        rowMatches text r &&
          decide (UEFISCDI_LATEST_YEAR - past ≤ r.year))).map (·.score)).max?) := by
    simp [Database.max_score_by_issn, h, sqlMaxScore_eq_max]
  refine ⟨h1, ?_⟩
  rw [h1]
  constructor
  · intro hok
    have : ((db.filter (fun r =>
        rowMatches text r &&
          decide (UEFISCDI_LATEST_YEAR - past ≤ r.year))).map (·.score)).max? = none := by
      exact Except.ok.inj hok
    rw [List.max?_eq_none_iff, List.map_eq_nil_iff, List.filter_eq_nil_iff] at this
    intro r hr hcon
    exact this r hr (by simp [hcon.1, hcon.2])
  · intro habs
    have hnil : db.filter (fun r =>
        rowMatches text r && decide (UEFISCDI_LATEST_YEAR - past ≤ r.year)) = [] := by
      rw [List.filter_eq_nil_iff]
      intro r hr
      intro hc
      simp only [Bool.and_eq_true, decide_eq_true_eq] at hc
      exact habs r hr ⟨hc.1, hc.2⟩
    rw [hnil]
    rfl

/-- Witness for C1 amended: the amended window max applied to the concrete
2020-row store. -/
theorem C1_amended_window_max_witness :
    Database.max_score_by_issn [⟨2020, "Acta", some "2054-4251", none, 7⟩]
        "2054-4251" 5 =
      .ok ((([⟨2020, "Acta", some "2054-4251", none, 7⟩].filter (fun r =>
        rowMatches "2054-4251" r &&
          decide (UEFISCDI_LATEST_YEAR - 5 ≤ r.year))).map (·.score)).max?) :=
  (C1_amended_window_max [⟨2020, "Acta", some "2054-4251", none, 7⟩]
    "2054-4251" 5 (by rfl)).1

end UvtScholarly

namespace UvtScholarly

/-- An empty or `N/A` score cell is converted to the default 0.0. -/
theorem to_float_empty_cell (s : String)
    (hs : EMPTY_SCORE.contains (asciiUpper (pyStrip s)) = true) :
    to_float s = .ok 0 := by
  have hmem : asciiUpper (pyStrip s) ∈ EMPTY_SCORE := by simpa using hs
  simp [to_float, hmem]

/-- C10: a score cell whose stripped, upper-cased text is empty or `N/A`
parses to numeric score 0.0; a RIS record built from such a cell passes the
validity check whenever its other fields are valid (non-empty journal, at
least one identifier, present identifiers checksum-valid), and once inserted
that row is returned, with score 0, by the store's window query. -/
theorem C10_empty_score_parses_to_zero (j i e s : String)
    (r : RelativeInfluenceScore)
    (hs : EMPTY_SCORE.contains (asciiUpper (pyStrip s)) = true)
    (hr : RelativeInfluenceScore.from_strings j i e s = .ok r)
    (hj : r.journal ≠ "")
    (hvi : ∀ x, r.issn = some x → x.is_valid = true)
    (hve : ∀ x, r.eissn = some x → x.is_valid = true)
    (hne : r.issn ≠ none ∨ r.eissn ≠ none) :
    r.score = 0 ∧ r.is_valid = true ∧
    ∃ i0, (r.issn <|> r.eissn) = some i0 ∧
      Database.max_score_by_issn_of
        [scoreRowOfRIS UEFISCDI_LATEST_YEAR r] i0 5 = .ok (some 0) := by
  have hsc : r.score = 0 := by
    rw [RelativeInfluenceScore.from_strings] at hr
    cases hoi : normalize_issn
        (tableGet RIS_INCORRECT_ISSN (asciiUpper (pyStrip i))) with
    | error msg => rw [hoi] at hr; exact absurd hr (by simp)
    | ok oi =>
        rw [hoi] at hr
        cases hoe : normalize_issn
            (tableGet RIS_INCORRECT_ISSN (asciiUpper (pyStrip e))) with
        | error msg => rw [hoe] at hr; exact absurd hr (by simp)
        | ok oe =>
            rw [hoe, to_float_empty_cell s hs] at hr
            have : (⟨pyStrip j, oi, oe, 0⟩ : RelativeInfluenceScore) = r :=
              Except.ok.inj hr
            rw [← this]
  have hisv : r.is_valid = true := by
    rw [RelativeInfluenceScore.is_valid]
    have h1 : r.issn.any (fun x => ! x.is_valid) = false := by
      cases hx : r.issn with
      | none => rfl
      | some x => simp [hvi x hx]
    have h2 : r.eissn.any (fun x => ! x.is_valid) = false := by
      cases hx : r.eissn with
      | none => rfl
      | some x => simp [hve x hx]
    have h3 : ¬ (r.issn = none ∧ r.eissn = none) := by
      rcases hne with h | h <;> intro hc
      · exact h hc.1
      · exact h hc.2
    simp [h1, h2, hj, h3, hsc]
  obtain ⟨i0, hi0, hval, hslot⟩ :
      ∃ i0, (r.issn <|> r.eissn) = some i0 ∧ i0.is_valid = true ∧
        (r.issn = some i0 ∨ r.eissn = some i0) := by
    cases hx : r.issn with
    | some x => exact ⟨x, by simp, hvi x hx, Or.inl rfl⟩
    | none =>
        cases hy : r.eissn with
        | some y => exact ⟨y, by simp, hve y hy, Or.inr rfl⟩
        | none =>
            rcases hne with h | h
            · exact absurd hx h
            · exact absurd hy h
  refine ⟨hsc, hisv, i0, hi0, ?_⟩
  have hmatch : rowMatches i0.str (scoreRowOfRIS UEFISCDI_LATEST_YEAR r) = true := by
    rcases hslot with h | h <;>
      simp [rowMatches, scoreRowOfRIS, h]
  have hcond : (rowMatches i0.str (scoreRowOfRIS UEFISCDI_LATEST_YEAR r) &&
      decide (UEFISCDI_LATEST_YEAR - 5 ≤
        (scoreRowOfRIS UEFISCDI_LATEST_YEAR r).year)) = true := by
    rw [hmatch]
    rfl
  rw [Database.max_score_by_issn_of, if_neg (by simp [hval])]
  rw [sqlMaxScore_eq_max]
  rw [List.filter_cons, if_pos hcond, List.filter_nil]
  have hrs : (scoreRowOfRIS UEFISCDI_LATEST_YEAR r).score = 0 := hsc
  rw [List.map_cons, List.map_nil, hrs]
  rfl

end UvtScholarly

namespace UvtScholarly

/-- Witness for C10: the RIS row
`("Journal of Candy", "2054-4251", "N/A", " n/a ")` parses to a record with
score 0 that passes the validity check. -/
theorem C10_empty_score_parses_to_zero_witness :
    (⟨"Journal of Candy", some ⟨"2054", "4251"⟩, none, 0⟩ :
      RelativeInfluenceScore).is_valid = true :=
  (C10_empty_score_parses_to_zero "Journal of Candy" "2054-4251" "N/A" " n/a "
    ⟨"Journal of Candy", some ⟨"2054", "4251"⟩, none, 0⟩
    (by rfl) (by rfl) (by decide)
    (by intro x hx; cases hx; rfl)
    (by intro x hx; cases hx)
    (Or.inl (by simp))).2.1

end UvtScholarly

namespace UvtScholarly

/-- `validPrefix` steps. -/
theorem validPrefix_cons_some {α : Type} (r : α) (rest : List (Option α)) :
    validPrefix (some r :: rest) = r :: validPrefix rest := by
  simp [validPrefix]

/-- `validPrefix` stops at the terminator. -/
theorem validPrefix_cons_none {α : Type} (rest : List (Option α)) :
    validPrefix (none :: rest) = ([] : List α) := by
  simp [validPrefix]

/-- The dict values, filtered by key, are the filtered dict entries' values
(keys stored with each record agree with the record's own key). -/
theorem dedup_values_filter {α κ : Type} [DecidableEq κ] (key : α → κ)
    (sc : α → ℚ) (k : κ) :
    ∀ (acc : List (κ × α)), (∀ p ∈ acc, p.1 = key p.2) →
      ((acc.map (·.2)).filter (fun r => decide (key r = k))).map sc =
        (acc.filter (fun p => decide (p.1 = k))).map (fun p => sc p.2) := by
  intro acc
  induction acc with
  | nil => intro _; rfl
  | cons p t ih =>
      intro h
      have hp : p.1 = key p.2 := h p (by simp)
      have ht := ih (fun q hq => h q (by simp [hq]))
      by_cases hk : key p.2 = k
      · rw [List.map_cons, List.filter_cons, List.filter_cons,
          if_pos (by simpa using hk), if_pos (by simp [hp, hk])]
        simp [ht]
      · rw [List.map_cons, List.filter_cons, List.filter_cons,
          if_neg (by simpa using hk), if_neg (by simp [hp, hk])]
        exact ht

/-- Under key uniqueness a successful key lookup determines the whole
filtered sublist. -/
theorem find_filter_single {α κ : Type} [DecidableEq κ] (k : κ) :
    ∀ (acc : List (κ × α)), (acc.map (·.1)).Nodup →
      ∀ q, acc.find? (fun p => decide (p.1 = k)) = some q →
        acc.filter (fun p => decide (p.1 = k)) = [q] := by
  intro acc
  induction acc with
  | nil => intro _ q hq; cases hq
  | cons p t ih =>
      intro hnd q hq
      have hnd2 : (t.map (·.1)).Nodup := (List.nodup_cons.mp hnd).2
      have hnotin : p.1 ∉ t.map (·.1) := (List.nodup_cons.mp hnd).1
      by_cases hk : p.1 = k
      · rw [List.find?_cons_of_pos _ (by simpa using hk)] at hq
        have hqp : q = p := (Option.some.inj hq).symm
        subst hqp
        rw [List.filter_cons, if_pos (by simpa using hk)]
        have : t.filter (fun p2 => decide (p2.1 = k)) = [] := by
          rw [List.filter_eq_nil_iff]
          intro x hx hc
          apply hnotin
          have hx1 : x.1 = k := by simpa using hc
          rw [hk]
          rw [← hx1]
          exact List.mem_map_of_mem (·.1) hx
        rw [this]
      · rw [List.find?_cons_of_neg _ (by simpa using hk)] at hq
        rw [List.filter_cons, if_neg (by simpa using hk)]
        exact ih hnd2 q hq

/-- A failed key lookup empties the filtered sublist. -/
theorem find_none_filter_nil {α κ : Type} [DecidableEq κ] (k : κ)
    (acc : List (κ × α))
    (hf : acc.find? (fun p => decide (p.1 = k)) = none) :
    acc.filter (fun p => decide (p.1 = k)) = [] := by
  rw [List.filter_eq_nil_iff]
  exact List.find?_eq_none.mp hf

/-- Replacing the value stored at one key leaves the key sequence intact. -/
theorem update_keys {α κ : Type} [DecidableEq κ] (kr : κ) (r : α)
    (acc : List (κ × α)) :
    (acc.map (fun p => if p.1 = kr then (p.1, r) else p)).map (·.1) =
      acc.map (·.1) := by
  rw [List.map_map]
  apply List.map_congr_left
  intro p _
  by_cases h : p.1 = kr <;> simp [h]

/-- Replacing the value stored at `kr` does not change the entries filtered
at a different key. -/
theorem update_filter_ne {α κ : Type} [DecidableEq κ] (kr k : κ) (r : α)
    (hk : k ≠ kr) :
    ∀ acc : List (κ × α),
      (acc.map (fun p => if p.1 = kr then (p.1, r) else p)).filter
          (fun p => decide (p.1 = k)) =
        acc.filter (fun p => decide (p.1 = k)) := by
  intro acc
  induction acc with
  | nil => rfl
  | cons p t ih =>
      by_cases hp : p.1 = kr
      · rw [List.map_cons, if_pos hp, List.filter_cons, List.filter_cons,
          if_neg (by simp [hp, (Ne.symm hk)]), if_neg (by simp [hp, (Ne.symm hk)])]
        exact ih
      · rw [List.map_cons, if_neg hp, List.filter_cons, List.filter_cons]
        by_cases hpk : p.1 = k
        · rw [if_pos (by simpa using hpk), if_pos (by simpa using hpk)]
          simp [ih]
        · rw [if_neg (by simpa using hpk), if_neg (by simpa using hpk)]
          exact ih

/-- Replacing the value stored at `kr` rewrites exactly the entries filtered
at `kr`. -/
theorem update_filter_eq {α κ : Type} [DecidableEq κ] (kr : κ) (r : α) :
    ∀ acc : List (κ × α),
      (acc.map (fun p => if p.1 = kr then (p.1, r) else p)).filter
          (fun p => decide (p.1 = kr)) =
        (acc.filter (fun p => decide (p.1 = kr))).map (fun p => (p.1, r)) := by
  intro acc
  induction acc with
  | nil => rfl
  | cons p t ih =>
      by_cases hp : p.1 = kr
      · rw [List.map_cons, if_pos hp, List.filter_cons, List.filter_cons,
          if_pos (by simpa using hp), if_pos (by simpa using hp),
          List.map_cons]
        simp [ih]
      · rw [List.map_cons, if_neg hp, List.filter_cons, List.filter_cons,
          if_neg (by simpa using hp), if_neg (by simpa using hp)]
        exact ih

/-- Prepending a smaller element does not change the running maximum. -/
theorem max?_drop_smaller (a b : ℚ) (h : b ≤ a) (X : List ℚ) :
    (b :: a :: X).max? = (a :: X).max? := by
  show some ((a :: X).foldl max b) = some (X.foldl max a)
  rw [List.foldl_cons, max_eq_right h]

/-- Appending a dominated element after the head does not change the running
maximum. -/
theorem max?_absorb_smaller (a b : ℚ) (h : a ≤ b) (X : List ℚ) :
    (b :: a :: X).max? = (b :: X).max? := by
  show some ((a :: X).foldl max b) = some (X.foldl max b)
  rw [List.foldl_cons, max_eq_left h]

end UvtScholarly

namespace UvtScholarly

/-- The dict invariant of the shared parse loop: at every key the stored
value carries the running maximum of the scores of the valid records
processed so far with that key. -/
theorem dedupGo_filter_max {α κ : Type} [DecidableEq κ] (key : α → κ)
    (sc : α → ℚ) (valid : α → Bool) :
    ∀ (rows : List (Option α)) (acc : List (κ × α)) (out : List α),
      dedupGo key sc valid acc rows = .ok out →
      (∀ p ∈ acc, p.1 = key p.2) → (acc.map (·.1)).Nodup →
      ∀ k, (out.filter (fun r => decide (key r = k))).map sc =
        ((acc.filter (fun p => decide (p.1 = k))).map (fun p => sc p.2) ++
          ((validPrefix rows).filter (fun r => decide (key r = k))).map sc).max?.toList := by
  intro rows
  induction rows with
  | nil =>
      intro acc out hok hkeys hnd k
      have h0 : Except.ok (ε := String) (acc.map (·.2)) = .ok out := hok
      have hout : acc.map (·.2) = out := Except.ok.inj h0
      rw [← hout, dedup_values_filter key sc k acc hkeys]
      rw [show validPrefix ([] : List (Option α)) = [] from rfl,
        List.filter_nil, List.map_nil, List.append_nil]
      cases hf : acc.find? (fun p => decide (p.1 = k)) with
      | none => rw [find_none_filter_nil k acc hf]; rfl
      | some q => rw [find_filter_single k acc hnd q hf]; rfl
  | cons row rest ih =>
      intro acc out hok hkeys hnd k
      cases row with
      | none =>
          have h0 : Except.ok (ε := String) (acc.map (·.2)) = .ok out := hok
          have hout : acc.map (·.2) = out := Except.ok.inj h0
          rw [← hout, dedup_values_filter key sc k acc hkeys]
          rw [validPrefix_cons_none, List.filter_nil, List.map_nil,
            List.append_nil]
          cases hf : acc.find? (fun p => decide (p.1 = k)) with
          | none => rw [find_none_filter_nil k acc hf]; rfl
          | some q => rw [find_filter_single k acc hnd q hf]; rfl
      | some r =>
          simp only [dedupGo] at hok
          by_cases hval : valid r = true
          case neg =>
            rw [if_pos hval] at hok
            exact absurd hok (by simp)
          case pos =>
            rw [if_neg (by simp [hval])] at hok
            rw [validPrefix_cons_some]
            cases hf : acc.find? (fun p => decide (p.1 = key r)) with
            | some other =>
                rw [hf] at hok
                have hok2 : (if sc other.2 < sc r then
                    dedupGo key sc valid
                      (acc.map (fun p => if p.1 = key r then (p.1, r) else p))
                      rest
                  else dedupGo key sc valid acc rest) = Except.ok out := hok
                clear hok
                have hsingle := find_filter_single (key r) acc hnd other hf
                by_cases hlt : sc other.2 < sc r
                case pos =>
                  rw [if_pos hlt] at hok2
                  have hkeys2 : ∀ p ∈ acc.map
                      (fun p => if p.1 = key r then (p.1, r) else p),
                      p.1 = key p.2 := by
                    intro p hp
                    rcases List.mem_map.mp hp with ⟨q, hq, hqe⟩
                    by_cases hq1 : q.1 = key r
                    · rw [← hqe]; simp [hq1]
                    · rw [← hqe]; simp [hq1]; exact hkeys q hq
                  have hnd2 : ((acc.map
                      (fun p => if p.1 = key r then (p.1, r) else p)).map
                        (·.1)).Nodup := by
                    rw [update_keys]; exact hnd
                  have IH := ih _ out hok2 hkeys2 hnd2 k
                  by_cases hkk : k = key r
                  · subst hkk
                    rw [update_filter_eq] at IH
                    rw [hsingle] at IH
                    rw [hsingle, IH]
                    rw [List.filter_cons, if_pos (by simp)]
                    simp only [List.map_cons, List.map_nil, List.cons_append,
                      List.nil_append]
                    rw [max?_drop_smaller _ _ (le_of_lt hlt)]
                  · rw [update_filter_ne _ _ _ hkk] at IH
                    rw [IH]
                    rw [List.filter_cons,
                      if_neg (by simp; exact fun hc => hkk hc.symm)]
                case neg =>
                  rw [if_neg hlt] at hok2
                  have IH := ih acc out hok2 hkeys hnd k
                  by_cases hkk : k = key r
                  · subst hkk
                    rw [hsingle] at IH
                    rw [hsingle, IH]
                    rw [List.filter_cons, if_pos (by simp)]
                    simp only [List.map_cons, List.map_nil, List.cons_append,
                      List.nil_append]
                    rw [max?_absorb_smaller _ _ (le_of_not_lt hlt)]
                  · rw [IH]
                    rw [List.filter_cons,
                      if_neg (by simp; exact fun hc => hkk hc.symm)]
            | none =>
                rw [hf] at hok
                have hok2 : dedupGo key sc valid (acc ++ [(key r, r)]) rest =
                    Except.ok out := hok
                clear hok
                have hkeys2 : ∀ p ∈ acc ++ [(key r, r)], p.1 = key p.2 := by
                  intro p hp
                  rcases List.mem_append.mp hp with h | h
                  · exact hkeys p h
                  · have hpe := List.mem_singleton.mp h
                    rw [hpe]
                have hnotin : key r ∉ acc.map (·.1) := by
                  intro hc
                  rcases List.mem_map.mp hc with ⟨q, hq, hqe⟩
                  have hq2 := List.find?_eq_none.mp hf q hq
                  simp [hqe] at hq2
                have hnd2 : ((acc ++ [(key r, r)]).map (·.1)).Nodup := by
                  rw [List.map_append, List.nodup_append]
                  refine ⟨hnd, by simp, ?_⟩
                  simp only [List.map_cons, List.map_nil]
                  rw [List.disjoint_singleton]
                  exact hnotin
                have IH := ih _ out hok2 hkeys2 hnd2 k
                rw [List.filter_append, List.map_append] at IH
                by_cases hkk : k = key r
                · subst hkk
                  rw [find_none_filter_nil _ acc hf] at IH
                  rw [find_none_filter_nil _ acc hf]
                  rw [show ([(key r, r)].filter
                      (fun p => decide (p.1 = key r))) = [(key r, r)] by
                    simp]
                  at IH
                  rw [IH]
                  rw [List.filter_cons, if_pos (by simp)]
                  simp
                · rw [show ([(key r, r)].filter
                      (fun p => decide (p.1 = k))) = [] by
                    simp; exact fun hc => hkk hc.symm] at IH
                  rw [List.map_nil, List.append_nil] at IH
                  rw [IH]
                  rw [List.filter_cons,
                    if_neg (by simp; exact fun hc => hkk hc.symm)]

end UvtScholarly

namespace UvtScholarly

/-- The parse loop started from the empty dict: per dict key, the output
holds exactly the maximum score of the processed records with that key. -/
theorem dedupParse_filter_max {α κ : Type} [DecidableEq κ] (key : α → κ)
    (sc : α → ℚ) (valid : α → Bool) (rows : List (Option α)) (out : List α)
    (h : dedupParse key sc valid rows = .ok out) (k : κ) :
    (out.filter (fun r => decide (key r = k))).map sc =
      (((validPrefix rows).filter
        (fun r => decide (key r = k))).map sc).max?.toList := by
  have h2 := dedupGo_filter_max key sc valid rows [] out h (by simp) (by simp) k
  simpa using h2

/-- C2 counterexample: the claim asserts that rows equal under the record's
defined identity (for the article-influence variant: same ISSN, eISSN and
edition) collapse to a single record with the higher score. Two AIS rows
that differ only in the subject category are equal under that identity, yet
the dict keyed by the score objects separates them (the hash covers the
category), so both survive in the parsed output with their own scores. -/
theorem C2_counterexample :
    XLSXParser.parseAIS
        [some ⟨"Acta Mathematica", some ⟨"2054", "4251"⟩, none, 1, .SCIE,
          ⟨"Mathematics", none⟩⟩,
         some ⟨"Acta Mathematica", some ⟨"2054", "4251"⟩, none, 2, .SCIE,
          ⟨"Physics", none⟩⟩] =
      .ok [⟨"Acta Mathematica", some ⟨"2054", "4251"⟩, none, 1, .SCIE,
          ⟨"Mathematics", none⟩⟩,
        ⟨"Acta Mathematica", some ⟨"2054", "4251"⟩, none, 2, .SCIE,
          ⟨"Physics", none⟩⟩] ∧
    ArticleInfluenceScore.eqPy
        ⟨"Acta Mathematica", some ⟨"2054", "4251"⟩, none, 1, .SCIE,
          ⟨"Mathematics", none⟩⟩
        ⟨"Acta Mathematica", some ⟨"2054", "4251"⟩, none, 2, .SCIE,
          ⟨"Physics", none⟩⟩ = true ∧
    (⟨"Acta Mathematica", some ⟨"2054", "4251"⟩, none, 1, .SCIE,
        ⟨"Mathematics", none⟩⟩ : ArticleInfluenceScore) ≠
      ⟨"Acta Mathematica", some ⟨"2054", "4251"⟩, none, 2, .SCIE,
        ⟨"Physics", none⟩⟩ := by
  refine ⟨by rfl, by rfl, by decide⟩

/-- C2 amended: in every variant's parse loop, rows merging under the dict
key collapse to one record carrying the maximum of their scores — where the
dict key is the record's defined identity `(str(issn), str(eissn))` for the
RIS variant and `(issn, eissn)` for the RIF variant, but for the
article-influence variant it is `(issn, eissn, edition, category)` (the dict
identifies keys by hash and equality, and the AIS hash covers the category),
so AIS rows equal under the defined identity yet differing in category
remain distinct records. -/
theorem C2_amended_dedup_keeps_max :
    (∀ rows out, RelativeInfluenceScoreParser.parse rows = .ok out →
      ∀ k, (out.filter (fun r => decide (risKey r = k))).map (·.score) =
        (((validPrefix rows).filter
          (fun r => decide (risKey r = k))).map (·.score)).max?.toList) ∧
    (∀ rows out, XLSXParser.parseRIF rows = .ok out →
      ∀ k, (out.filter (fun r => decide (rifKey r = k))).map (·.score) =
        (((validPrefix rows).filter
          (fun r => decide (rifKey r = k))).map (·.score)).max?.toList) ∧
    (∀ rows out, XLSXParser.parseAIS rows = .ok out →
      ∀ k, (out.filter (fun r => decide (aisDictKey r = k))).map (·.score) =
        (((validPrefix rows).filter
          (fun r => decide (aisDictKey r = k))).map (·.score)).max?.toList) := by
  refine ⟨?_, ?_, ?_⟩ <;> intro rows out h k <;>
    exact dedupParse_filter_max _ _ _ rows out h k

/-- Witness for C2 amended: two RIS rows sharing (ISSN, eISSN) with scores
1 and 2 collapse to the single record carrying score 2. -/
theorem C2_amended_dedup_keeps_max_witness :
    (([(⟨"Acta Mathematica", some ⟨"2054", "4251"⟩, none, 2⟩ :
        RelativeInfluenceScore)].filter
      (fun r => decide (risKey r = ("2054-4251", "None")))).map (·.score)) =
      (((validPrefix
          [some (⟨"Acta Mathematica", some ⟨"2054", "4251"⟩, none, 1⟩ :
            RelativeInfluenceScore),
           some ⟨"Acta Mathematica", some ⟨"2054", "4251"⟩, none, 2⟩]).filter
        (fun r => decide (risKey r = ("2054-4251", "None")))).map
          (·.score)).max?.toList :=
  C2_amended_dedup_keeps_max.1
    [some ⟨"Acta Mathematica", some ⟨"2054", "4251"⟩, none, 1⟩,
     some ⟨"Acta Mathematica", some ⟨"2054", "4251"⟩, none, 2⟩]
    [⟨"Acta Mathematica", some ⟨"2054", "4251"⟩, none, 2⟩]
    (by rfl) ("2054-4251", "None")

end UvtScholarly

namespace UvtScholarly

/-- Inserting a score key makes the map contain it. -/
theorem dictInsertScore_contains_self (m : List (ScoreKind × ℚ))
    (k : ScoreKind) (v : ℚ) :
    dictContainsScore (dictInsertScore m k v) k = true := by
  rw [dictInsertScore]
  by_cases hc : m.any (fun p => p.1 == k) = true
  · rw [if_pos hc, dictContainsScore, List.any_map]
    have : ((fun p => p.1 == k) ∘ fun p : ScoreKind × ℚ =>
        if p.1 == k then (p.1, v) else p) = fun p => p.1 == k := by
      funext p
      by_cases hp : p.1 = k <;> simp [hp]
    rw [this]
    exact hc
  · rw [if_neg hc, dictContainsScore, List.any_append]
    simp

/-- Inserting a score key keeps every key already contained. -/
theorem dictInsertScore_contains_mono (m : List (ScoreKind × ℚ))
    (k k2 : ScoreKind) (v : ℚ)
    (h : dictContainsScore m k2 = true) :
    dictContainsScore (dictInsertScore m k v) k2 = true := by
  rw [dictInsertScore]
  by_cases hc : m.any (fun p => p.1 == k) = true
  · rw [if_pos hc, dictContainsScore, List.any_map]
    have : ((fun p => p.1 == k2) ∘ fun p : ScoreKind × ℚ =>
        if p.1 == k then (p.1, v) else p) = fun p => p.1 == k2 := by
      funext p
      by_cases hp : p.1 = k <;> simp [hp]
    rw [this]
    exact h
  · rw [if_neg hc, dictContainsScore, List.any_append]
    rw [dictContainsScore] at h
    simp [h]

/-- A successful `addScoreOne` pass keeps the identifiers and never removes
a score key. -/
theorem addScoreOne_ok_fields (db : List ScoreRow) (past : Int)
    (k : ScoreKind) (pub pub1 : Publication)
    (h : addScoreOne db past k pub = .ok pub1) :
    pub1.issn = pub.issn ∧ pub1.eissn = pub.eissn ∧
      (∀ k2, dictContainsScore pub.journal.scores k2 = true →
        dictContainsScore pub1.journal.scores k2 = true) := by
  rw [addScoreOne] at h
  by_cases hc : dictContainsScore pub.journal.scores k = true
  · rw [if_pos hc] at h
    have he : pub = pub1 := Except.ok.inj h
    subst he
    exact ⟨rfl, rfl, fun _ h2 => h2⟩
  · rw [if_neg hc] at h
    cases he : pub.issn <|> pub.eissn with
    | none =>
        rw [he] at h
        have h2 : Except.ok (ε := String) pub = .ok pub1 := h
        have he2 : pub = pub1 := Except.ok.inj h2
        subst he2
        exact ⟨rfl, rfl, fun _ h2 => h2⟩
    | some issn =>
        rw [he] at h
        have h2 : (match Database.max_score_by_issn_of db issn past with
          | .error msg => Except.error msg
          | .ok (some v) => Except.ok { pub with journal :=
              { pub.journal with
                scores := dictInsertScore pub.journal.scores k v } }
          | .ok none => Except.ok pub) = .ok pub1 := h
        clear h
        cases hq : Database.max_score_by_issn_of db issn past with
        | error msg => rw [hq] at h2; exact absurd h2 (by simp)
        | ok value =>
            rw [hq] at h2
            cases value with
            | some v =>
                have h3 : Except.ok (ε := String) { pub with journal :=
                    { pub.journal with
                      scores := dictInsertScore pub.journal.scores k v } } =
                    .ok pub1 := h2
                have he2 := Except.ok.inj h3
                rw [← he2]
                exact ⟨rfl, rfl, fun k2 hk2 =>
                  dictInsertScore_contains_mono _ _ _ _ hk2⟩
            | none =>
                have h3 : Except.ok (ε := String) pub = .ok pub1 := h2
                have he2 := Except.ok.inj h3
                rw [← he2]
                exact ⟨rfl, rfl, fun _ h2 => h2⟩

/-- `addScoreOne` is idempotent on its successful results. -/
theorem addScoreOne_idem (db : List ScoreRow) (past : Int) (k : ScoreKind)
    (pub pub1 : Publication)
    (h : addScoreOne db past k pub = .ok pub1) :
    addScoreOne db past k pub1 = .ok pub1 := by
  rw [addScoreOne] at h
  by_cases hc : dictContainsScore pub.journal.scores k = true
  · rw [if_pos hc] at h
    have he : pub = pub1 := Except.ok.inj h
    subst he
    rw [addScoreOne, if_pos hc]
  · rw [if_neg hc] at h
    cases he : pub.issn <|> pub.eissn with
    | none =>
        rw [he] at h
        have h2 : Except.ok (ε := String) pub = .ok pub1 := h
        have he2 : pub = pub1 := Except.ok.inj h2
        subst he2
        rw [addScoreOne, if_neg hc, he]
    | some issn =>
        rw [he] at h
        have h2 : (match Database.max_score_by_issn_of db issn past with
          | .error msg => Except.error msg
          | .ok (some v) => Except.ok { pub with journal :=
              { pub.journal with
                scores := dictInsertScore pub.journal.scores k v } }
          | .ok none => Except.ok pub) = .ok pub1 := h
        clear h
        cases hq : Database.max_score_by_issn_of db issn past with
        | error msg => rw [hq] at h2; exact absurd h2 (by simp)
        | ok value =>
            rw [hq] at h2
            cases value with
            | some v =>
                have h3 : Except.ok (ε := String) { pub with journal :=
                    { pub.journal with
                      scores := dictInsertScore pub.journal.scores k v } } =
                    .ok pub1 := h2
                have he2 := Except.ok.inj h3
                rw [addScoreOne, if_pos (by
                  rw [← he2]
                  exact dictInsertScore_contains_self _ _ _)]
            | none =>
                have h3 : Except.ok (ε := String) pub = .ok pub1 := h2
                have he2 : pub = pub1 := Except.ok.inj h3
                subst he2
                rw [addScoreOne, if_neg hc, he]
                show (match Database.max_score_by_issn_of db issn past with
                  | .error msg => Except.error msg
                  | .ok (some v) => Except.ok { pub with journal :=
                      { pub.journal with
                        scores := dictInsertScore pub.journal.scores k v } }
                  | .ok none => Except.ok pub) = .ok pub
                rw [hq]

/-- `addScoreOne` succeeds exactly when the publication already carries the
kind, has no identifier at all, or its effective identifier passes the
checksum. -/
theorem addScoreOne_isOk (db : List ScoreRow) (past : Int) (k : ScoreKind)
    (pub : Publication) :
    (∃ p1, addScoreOne db past k pub = .ok p1) ↔
      (dictContainsScore pub.journal.scores k = true ∨
        (pub.issn <|> pub.eissn) = none ∨
        ∃ i, (pub.issn <|> pub.eissn) = some i ∧ i.is_valid = true) := by
  constructor
  · rintro ⟨p1, h⟩
    rw [addScoreOne] at h
    by_cases hc : dictContainsScore pub.journal.scores k = true
    · exact Or.inl hc
    · rw [if_neg hc] at h
      cases he : pub.issn <|> pub.eissn with
      | none => exact Or.inr (Or.inl rfl)
      | some issn =>
          rw [he] at h
          refine Or.inr (Or.inr ⟨issn, rfl, ?_⟩)
          by_cases hv : issn.is_valid = true
          · exact hv
          · exfalso
            have h2 : (match Database.max_score_by_issn_of db issn past with
              | .error msg => Except.error msg
              | .ok (some v) => Except.ok { pub with journal :=
                  { pub.journal with
                    scores := dictInsertScore pub.journal.scores k v } }
              | .ok none => Except.ok pub) = .ok p1 := h
            have hq : Database.max_score_by_issn_of db issn past =
                .error "not a valid ISSN" := by
              rw [Database.max_score_by_issn_of, if_pos (by simpa using hv)]
            rw [hq] at h2
            exact absurd h2 (by simp)
  · intro h
    rw [addScoreOne]
    by_cases hc : dictContainsScore pub.journal.scores k = true
    · rw [if_pos hc]; exact ⟨pub, rfl⟩
    · rw [if_neg hc]
      cases he : pub.issn <|> pub.eissn with
      | none => exact ⟨pub, rfl⟩
      | some issn =>
          rcases h with h | h | ⟨i, hi, hiv⟩
          · exact absurd h hc
          · rw [he] at h; exact absurd h (by simp)
          · rw [he] at hi
            have hii : issn = i := Option.some.inj hi
            subst hii
            have hq : Database.max_score_by_issn_of db issn past =
                .ok (sqlMaxScore db (fun r => rowMatches issn.str r &&
                  decide (UEFISCDI_LATEST_YEAR - past ≤ r.year))) := by
              rw [Database.max_score_by_issn_of, if_neg (by simp [hiv])]
            show ∃ p1, (match Database.max_score_by_issn_of db issn past with
              | .error msg => Except.error msg
              | .ok (some v) => Except.ok { pub with journal :=
                  { pub.journal with
                    scores := dictInsertScore pub.journal.scores k v } }
              | .ok none => Except.ok pub) = .ok p1
            rw [hq]
            cases sqlMaxScore db (fun r => rowMatches issn.str r &&
                decide (UEFISCDI_LATEST_YEAR - past ≤ r.year)) with
            | some v => exact ⟨_, rfl⟩
            | none => exact ⟨pub, rfl⟩

end UvtScholarly

namespace UvtScholarly

/-- A successful `mapExcept` run relates input and output pointwise. -/
theorem mapExcept_forall2 {α β : Type} (f : α → Except String β) :
    ∀ (l : List α) (out : List β), mapExcept f l = .ok out →
      List.Forall₂ (fun a b => f a = .ok b) l out := by
  intro l
  induction l with
  | nil =>
      intro out h
      have h2 : Except.ok (ε := String) ([] : List β) = .ok out := h
      rw [← Except.ok.inj h2]
      exact List.Forall₂.nil
  | cons a as ih =>
      intro out h
      rw [mapExcept] at h
      cases hfa : f a with
      | error msg => rw [hfa] at h; exact absurd h (by simp)
      | ok b =>
          rw [hfa] at h
          have h2 : (match mapExcept f as with
            | .error msg => (Except.error msg : Except String (List β))
            | .ok bs => .ok (b :: bs)) = .ok out := h
          cases hm : mapExcept f as with
          | error msg => rw [hm] at h2; exact absurd h2 (by simp)
          | ok bs =>
              rw [hm] at h2
              have h3 : Except.ok (ε := String) (b :: bs) = .ok out := h2
              rw [← Except.ok.inj h3]
              exact List.Forall₂.cons hfa (ih bs hm)

/-- `mapExcept` succeeds when `f` succeeds on every element. -/
theorem mapExcept_ok_of_all {α β : Type} (f : α → Except String β) :
    ∀ l : List α, (∀ a ∈ l, ∃ b, f a = .ok b) →
      ∃ out, mapExcept f l = .ok out := by
  intro l
  induction l with
  | nil => intro _; exact ⟨[], rfl⟩
  | cons a as ih =>
      intro h
      obtain ⟨b, hb⟩ := h a (by simp)
      obtain ⟨bs, hbs⟩ := ih (fun x hx => h x (by simp [hx]))
      refine ⟨b :: bs, ?_⟩
      rw [mapExcept, hb]
      show (match mapExcept f as with
        | .error msg => (Except.error msg : Except String (List β))
        | .ok bs2 => .ok (b :: bs2)) = .ok (b :: bs)
      rw [hbs]

/-- `mapExcept` of a pointwise idempotent function is idempotent on its
successful results. -/
theorem mapExcept_idem {α : Type} (f : α → Except String α)
    (hidem : ∀ a b, f a = .ok b → f b = .ok b) :
    ∀ (l out : List α), mapExcept f l = .ok out →
      mapExcept f out = .ok out := by
  intro l
  induction l with
  | nil =>
      intro out h
      have h2 : Except.ok (ε := String) ([] : List α) = .ok out := h
      rw [← Except.ok.inj h2]
      rfl
  | cons a as ih =>
      intro out h
      rw [mapExcept] at h
      cases hfa : f a with
      | error msg => rw [hfa] at h; exact absurd h (by simp)
      | ok b =>
          rw [hfa] at h
          have h2 : (match mapExcept f as with
            | .error msg => (Except.error msg : Except String (List α))
            | .ok bs => .ok (b :: bs)) = .ok out := h
          cases hm : mapExcept f as with
          | error msg => rw [hm] at h2; exact absurd h2 (by simp)
          | ok bs =>
              rw [hm] at h2
              have h3 : Except.ok (ε := String) (b :: bs) = .ok out := h2
              rw [← Except.ok.inj h3]
              rw [mapExcept, hidem a b hfa]
              show (match mapExcept f bs with
                | .error msg => (Except.error msg : Except String (List α))
                | .ok bs2 => .ok (b :: bs2)) = .ok (b :: bs)
              rw [ih bs hm]

/-- Each output element of a pointwise relation has a related input. -/
theorem forall2_mem_right {α β : Type} {R : α → β → Prop} :
    ∀ {l1 : List α} {l2 : List β}, List.Forall₂ R l1 l2 →
      ∀ b ∈ l2, ∃ a ∈ l1, R a b := by
  intro l1 l2 h
  induction h with
  | nil => intro b hb; cases hb
  | @cons a b t1 t2 hab _ ih =>
      intro b2 hb2
      rcases List.mem_cons.mp hb2 with hb2 | hb2
      · exact ⟨a, by simp, by rw [hb2]; exact hab⟩
      · obtain ⟨a2, ha2, hr⟩ := ih b2 hb2
        exact ⟨a2, by simp [ha2], hr⟩

/-- Each input element of a pointwise relation has a related output. -/
theorem forall2_mem_left {α β : Type} {R : α → β → Prop} :
    ∀ {l1 : List α} {l2 : List β}, List.Forall₂ R l1 l2 →
      ∀ a ∈ l1, ∃ b ∈ l2, R a b := by
  intro l1 l2 h
  induction h with
  | nil => intro a ha; cases ha
  | @cons a b t1 t2 hab _ ih =>
      intro a2 ha2
      rcases List.mem_cons.mp ha2 with ha2 | ha2
      · exact ⟨b, by simp, by rw [ha2]; exact hab⟩
      · obtain ⟨b2, hb2, hr⟩ := ih a2 ha2
        exact ⟨b2, by simp [hb2], hr⟩

/-- A successful kind pass means the kind has a database class. -/
theorem processKind_not_jif {dbs : ScoreKind → List ScoreRow} {past : Int}
    {k : ScoreKind} {pubs out : List Publication}
    (h : processKind dbs past k pubs = .ok out) : ¬ k = ScoreKind.JIF := by
  intro hk
  rw [processKind, if_pos hk] at h
  exact absurd h (by simp)

/-- A successful kind pass is the per-publication loop. -/
theorem processKind_mapExcept {dbs : ScoreKind → List ScoreRow} {past : Int}
    {k : ScoreKind} {pubs out : List Publication}
    (h : processKind dbs past k pubs = .ok out) :
    mapExcept (addScoreOne (dbs k) past k) pubs = .ok out := by
  have hk := processKind_not_jif h
  rw [processKind, if_neg hk] at h
  exact h

/-- One kind pass is idempotent on its successful results. -/
theorem processKind_idem (dbs : ScoreKind → List ScoreRow) (past : Int)
    (k : ScoreKind) (pubs out : List Publication)
    (h : processKind dbs past k pubs = .ok out) :
    processKind dbs past k out = .ok out := by
  have hk := processKind_not_jif h
  have hm := processKind_mapExcept h
  rw [processKind, if_neg hk]
  exact mapExcept_idem _ (fun a b hab => addScoreOne_idem _ _ _ a b hab)
    pubs out hm

/-- A kind pass that succeeded on the input list also succeeds on the output
of another kind's pass over the same list (identifiers are unchanged and
score keys only accumulate). -/
theorem processKind_transfer (dbs : ScoreKind → List ScoreRow) (past : Int)
    (k klast : ScoreKind) (pubs r out : List Publication)
    (hk : processKind dbs past k pubs = .ok r)
    (hlast : processKind dbs past klast pubs = .ok out) :
    ∃ r2, processKind dbs past k out = .ok r2 := by
  have hkj := processKind_not_jif hk
  have hmk := processKind_mapExcept hk
  have hml := processKind_mapExcept hlast
  have hf2 := mapExcept_forall2 _ pubs out hml
  rw [processKind, if_neg hkj]
  apply mapExcept_ok_of_all
  intro o ho
  obtain ⟨a, ha, hao⟩ := forall2_mem_right hf2 o ho
  obtain ⟨b, _, hb⟩ := forall2_mem_left (mapExcept_forall2 _ pubs r hmk) a ha
  have hsucc := (addScoreOne_isOk (dbs k) past k a).mp ⟨b, hb⟩
  obtain ⟨hissn, heissn, hmono⟩ := addScoreOne_ok_fields _ _ _ a o hao
  apply (addScoreOne_isOk (dbs k) past k o).mpr
  rcases hsucc with h | h | ⟨i, hi, hiv⟩
  · exact Or.inl (hmono k h)
  · refine Or.inr (Or.inl ?_)
    rw [hissn, heissn]
    exact h
  · refine Or.inr (Or.inr ⟨i, ?_, hiv⟩)
    rw [hissn, heissn]
    exact hi

/-- `getLast?` is blind to a front element when the tail is nonempty. -/
theorem getLast?_cons_of_some {α : Type} (k : α) (ks : List α) (kl : α)
    (h : ks.getLast? = some kl) : (k :: ks).getLast? = some kl := by
  cases ks with
  | nil => cases h
  | cons a t => rw [List.getLast?_cons_cons]; exact h

/-- Dissecting a successful `addScoresGo` run: every kind's pass over the
original publication list succeeded, and the result is the accumulator (when
no kind was requested) or the last kind's pass. -/
theorem addScoresGo_structure (dbs : ScoreKind → List ScoreRow) (past : Int)
    (pubs : List Publication) :
    ∀ (ks : List ScoreKind) (acc : Option (List Publication))
      (out : List Publication),
      addScoresGo dbs past pubs ks acc = .ok out →
      (∀ k ∈ ks, ∃ r, processKind dbs past k pubs = .ok r) ∧
      ((ks = [] ∧ acc = some out) ∨
        ∃ kl, ks.getLast? = some kl ∧
          processKind dbs past kl pubs = .ok out) := by
  intro ks
  induction ks with
  | nil =>
      intro acc out h
      cases acc with
      | none => exact absurd h (by simp [addScoresGo])
      | some r =>
          have h2 : Except.ok (ε := String) r = .ok out := h
          exact ⟨by simp, Or.inl ⟨rfl, by rw [Except.ok.inj h2]⟩⟩
  | cons k ks ih =>
      intro acc out h
      have h2 : (match processKind dbs past k pubs with
        | .error msg => (Except.error msg : Except String (List Publication))
        | .ok r => addScoresGo dbs past pubs ks (some r)) = .ok out := h
      cases hp : processKind dbs past k pubs with
      | error msg => rw [hp] at h2; exact absurd h2 (by simp)
      | ok r =>
          rw [hp] at h2
          have h3 : addScoresGo dbs past pubs ks (some r) = .ok out := h2
          obtain ⟨hall, hcase⟩ := ih (some r) out h3
          refine ⟨?_, ?_⟩
          · intro k2 hk2
            rcases List.mem_cons.mp hk2 with hk2 | hk2
            · exact ⟨r, by rw [hk2]; exact hp⟩
            · exact hall k2 hk2
          · rcases hcase with ⟨hnil, hacc⟩ | ⟨kl, hgl, hkl⟩
            · subst hnil
              refine Or.inr ⟨k, rfl, ?_⟩
              rw [show r = out from Option.some.inj hacc] at hp
              exact hp
            · exact Or.inr ⟨kl, getLast?_cons_of_some k ks kl hgl, hkl⟩

/-- Building a successful `addScoresGo` run from per-kind successes and the
last kind's result. -/
theorem addScoresGo_construct (dbs : ScoreKind → List ScoreRow) (past : Int)
    (q : List Publication) :
    ∀ (ks : List ScoreKind) (acc : Option (List Publication))
      (kl : ScoreKind) (v : List Publication),
      (∀ k ∈ ks, ∃ r, processKind dbs past k q = .ok r) →
      ks.getLast? = some kl →
      processKind dbs past kl q = .ok v →
      addScoresGo dbs past q ks acc = .ok v := by
  intro ks
  induction ks with
  | nil => intro acc kl v _ hgl _; cases hgl
  | cons k t ih =>
      intro acc kl v hall hgl hkl
      cases t with
      | nil =>
          have hklk : kl = k := by
            have hgl2 : (k :: ([] : List ScoreKind)).getLast? = some k := rfl
            rw [hgl2] at hgl
            exact (Option.some.inj hgl).symm
          subst hklk
          show (match processKind dbs past kl q with
            | .error msg => (Except.error msg : Except String (List Publication))
            | .ok r => addScoresGo dbs past q [] (some r)) = .ok v
          rw [hkl]
          rfl
      | cons k2 t2 =>
          obtain ⟨r, hr⟩ := hall k (by simp)
          show (match processKind dbs past k q with
            | .error msg => (Except.error msg : Except String (List Publication))
            | .ok r => addScoresGo dbs past q (k2 :: t2) (some r)) = .ok v
          rw [hr]
          refine ih (some r) kl v (fun x hx => hall x (by simp [hx])) ?_ hkl
          rw [List.getLast?_cons_cons] at hgl
          exact hgl

/-- C3: score attachment is idempotent: a second `add_scores` run with the
same store, window and requested kinds maps the first run's output to itself
and raises no error; and within a kind's pass every publication already
carrying that requested kind is returned untouched. -/
theorem C3_add_scores_idempotent (dbs : ScoreKind → List ScoreRow)
    (past : Int) (kinds : Option (List ScoreKind))
    (pubs out : List Publication)
    (h : add_scores dbs past kinds pubs = .ok out) :
    add_scores dbs past kinds out = .ok out ∧
    (∀ k pub, dictContainsScore pub.journal.scores k = true →
      addScoreOne (dbs k) past k pub = .ok pub) := by
  refine ⟨?_, fun k pub hk => by rw [addScoreOne, if_pos hk]⟩
  cases kinds with
  | none =>
      have h2 : Except.ok (ε := String) pubs = .ok out := h
      show Except.ok out = .ok out
      rfl
  | some ks =>
      have h2 : addScoresGo dbs past pubs ks none = .ok out := h
      obtain ⟨hall, hcase⟩ := addScoresGo_structure dbs past pubs ks none out h2
      rcases hcase with ⟨_, hacc⟩ | ⟨kl, hgl, hkl⟩
      · cases hacc
      · show addScoresGo dbs past out ks none = .ok out
        refine addScoresGo_construct dbs past out ks none kl out ?_ hgl
          (processKind_idem dbs past kl pubs out hkl)
        intro k hk
        obtain ⟨r, hr⟩ := hall k hk
        exact processKind_transfer dbs past k kl pubs r out hr hkl

/-- Witness for C3: a one-publication run (no identifiers, empty store) whose
second application is checked at a concrete input. -/
theorem C3_add_scores_idempotent_witness :
    add_scores (fun _ => []) 5 (some [ScoreKind.RIS])
        [⟨"WOS:1", "Title", 2024, ⟨"Acta", [], []⟩, none, none, none, []⟩] =
      .ok [⟨"WOS:1", "Title", 2024, ⟨"Acta", [], []⟩, none, none, none, []⟩] :=
  (C3_add_scores_idempotent (fun _ => []) 5 (some [ScoreKind.RIS])
    [⟨"WOS:1", "Title", 2024, ⟨"Acta", [], []⟩, none, none, none, []⟩]
    [⟨"WOS:1", "Title", 2024, ⟨"Acta", [], []⟩, none, none, none, []⟩]
    (by rfl)).1

end UvtScholarly

namespace UvtScholarly

/-- `DOI.__eq__` unfolded to component equalities. -/
theorem DOI.eqPy_iff (a b : DOI) :
    DOI.eqPy a b = true ↔
      (a.nspace = b.nspace ∧ a.registrant = b.registrant ∧
        lowercase_ascii a.item = lowercase_ascii b.item) := by
  simp [DOI.eqPy, Bool.and_eq_true, beq_iff_eq, and_assoc]

/-- `DOI.__eq__` is reflexive. -/
theorem DOI.eqPy_refl (a : DOI) : DOI.eqPy a a = true := by
  simp [DOI.eqPy]

/-- `DOI.__eq__` is symmetric. -/
theorem DOI.eqPy_symm {a b : DOI} (h : DOI.eqPy a b = true) :
    DOI.eqPy b a = true := by
  rw [DOI.eqPy_iff] at h ⊢
  exact ⟨h.1.symm, h.2.1.symm, h.2.2.symm⟩

/-- `DOI.__eq__` is transitive. -/
theorem DOI.eqPy_trans {a b c : DOI} (h1 : DOI.eqPy a b = true)
    (h2 : DOI.eqPy b c = true) : DOI.eqPy a c = true := by
  rw [DOI.eqPy_iff] at h1 h2 ⊢
  exact ⟨h1.1.trans h2.1, h1.2.1.trans h2.2.1, h1.2.2.trans h2.2.2⟩

/-- `find?` on a cons whose head satisfies the predicate. -/
theorem find?_cons_pos {α : Type} (p : α → Bool) (a : α) (l : List α)
    (h : p a = true) : (a :: l).find? p = some a := by
  simp [List.find?_cons, h]

/-- `find?` on a cons whose head fails the predicate. -/
theorem find?_cons_neg {α : Type} (p : α → Bool) (a : α) (l : List α)
    (h : p a = false) : (a :: l).find? p = l.find? p := by
  simp [List.find?_cons, h]

/-- Under pairwise-distinct keys, a stored entry whose key matches the
looked-up DOI is the unique lookup result. -/
theorem index_find_eq_of_mem (d : DOI) :
    ∀ (m : List (DOI × Publication)),
      (m.map (·.1)).Pairwise (fun x y => DOI.eqPy x y = false) →
      ∀ (k0 : DOI) (pub : Publication), (k0, pub) ∈ m →
        DOI.eqPy k0 d = true →
        m.find? (fun p => DOI.eqPy p.1 d) = some (k0, pub) := by
  intro m
  induction m with
  | nil => intro _ k0 pub hmem; cases hmem
  | cons q t ih =>
      intro hpw k0 pub hmem hkd
      rw [List.map_cons, List.pairwise_cons] at hpw
      by_cases hq : DOI.eqPy q.1 d = true
      · rw [find?_cons_pos (fun p => DOI.eqPy p.1 d) q t hq]
        rcases List.mem_cons.mp hmem with he | ht
        · rw [he]
        · exfalso
          have hqk0 : DOI.eqPy q.1 k0 = true :=
            DOI.eqPy_trans hq (DOI.eqPy_symm hkd)
          have hk0mem : k0 ∈ t.map (·.1) :=
            List.mem_map_of_mem (·.1) ht
          have hfalse := hpw.1 k0 hk0mem
          rw [hfalse] at hqk0
          exact absurd hqk0 (by simp)
      · rw [find?_cons_neg (fun p => DOI.eqPy p.1 d) q t (by simpa using hq)]
        rcases List.mem_cons.mp hmem with he | ht
        · exfalso
          have hq1 : q.1 = k0 := by rw [← he]
          rw [hq1] at hq
          exact hq hkd
        · exact ih hpw.2 k0 pub ht hkd

/-- `indexSet` keeps the key sequence. -/
theorem indexSet_keys (m : List (DOI × Publication)) (k : DOI)
    (v : Publication) : (indexSet m k v).map (·.1) = m.map (·.1) := by
  rw [indexSet, List.map_map]
  apply List.map_congr_left
  intro p _
  by_cases h : DOI.eqPy p.1 k = true <;> simp [h]

/-- `citeOne` keeps the key sequence. -/
theorem citeOne_keys (cite : Citer) (m : List (DOI × Publication)) (d : DOI) :
    (citeOne cite m d).map (·.1) = m.map (·.1) := by
  rw [citeOne]
  cases indexGet m d with
  | none => rfl
  | some pub => exact indexSet_keys m d _

/-- `citeOne` on a matching key appends the citer to the stored candidate. -/
theorem citeOne_hit (cite : Citer) (m : List (DOI × Publication)) (d k0 : DOI)
    (pub : Publication)
    (hpw : (m.map (·.1)).Pairwise (fun x y => DOI.eqPy x y = false))
    (hmem : (k0, pub) ∈ m) (hkd : DOI.eqPy k0 d = true) :
    (k0, { pub with cited_by := pub.cited_by ++ [cite] }) ∈
      citeOne cite m d := by
  have hf := index_find_eq_of_mem d m hpw k0 pub hmem hkd
  have hg : indexGet m d = some pub := by rw [indexGet, hf]; rfl
  rw [citeOne, hg]
  show (k0, { pub with cited_by := pub.cited_by ++ [cite] }) ∈
    indexSet m d { pub with cited_by := pub.cited_by ++ [cite] }
  have hfe : (fun p : DOI × Publication =>
      if DOI.eqPy p.1 d then (p.1, { pub with cited_by := pub.cited_by ++ [cite] })
      else p) (k0, pub) =
      (k0, { pub with cited_by := pub.cited_by ++ [cite] }) := by
    simp [hkd]
  rw [indexSet, ← hfe]
  exact List.mem_map_of_mem _ hmem

/-- `citeOne` on a non-matching key keeps the stored candidate unchanged. -/
theorem citeOne_miss (cite : Citer) (m : List (DOI × Publication)) (d k0 : DOI)
    (pub : Publication) (hmem : (k0, pub) ∈ m)
    (hkd : DOI.eqPy k0 d = false) :
    (k0, pub) ∈ citeOne cite m d := by
  rw [citeOne]
  cases indexGet m d with
  | none => exact hmem
  | some pub2 =>
      show (k0, pub) ∈
        indexSet m d { pub2 with cited_by := pub2.cited_by ++ [cite] }
      have hfe : (fun p : DOI × Publication =>
          if DOI.eqPy p.1 d then
            (p.1, { pub2 with cited_by := pub2.cited_by ++ [cite] })
          else p) (k0, pub) = (k0, pub) := by
        simp [hkd]
      rw [indexSet, ← hfe]
      exact List.mem_map_of_mem _ hmem

/-- `citeOne` never clears the DOI of a stored candidate. -/
theorem citeOne_doi (cite : Citer) (m : List (DOI × Publication)) (d : DOI)
    (h : ∀ p ∈ m, p.2.doi ≠ none) :
    ∀ p ∈ citeOne cite m d, p.2.doi ≠ none := by
  intro p hp
  rw [citeOne] at hp
  cases hg : indexGet m d with
  | none => rw [hg] at hp; exact h p hp
  | some pub2 =>
      rw [hg] at hp
      have hp2 : p ∈ indexSet m d
          { pub2 with cited_by := pub2.cited_by ++ [cite] } := hp
      rw [indexSet] at hp2
      rcases List.mem_map.mp hp2 with ⟨q, hq, hqe⟩
      have hpub2 : pub2.doi ≠ none := by
        rw [indexGet] at hg
        cases hf : m.find? (fun p => DOI.eqPy p.1 d) with
        | none => rw [hf] at hg; exact absurd hg (by simp)
        | some q2 =>
            rw [hf] at hg
            have hq2m := List.mem_of_find?_eq_some hf
            have : q2.2 = pub2 := by simpa using hg
            rw [← this]
            exact h q2 hq2m
      by_cases hqd : DOI.eqPy q.1 d = true
      · rw [← hqe]
        simp only [hqd, if_true]
        exact hpub2
      · rw [← hqe]
        simp only [hqd, if_false]
        exact h q hq

end UvtScholarly

namespace UvtScholarly

/-- Appending no copies is the identity. -/
theorem appendCited_zero (cite : Citer) (pub : Publication) :
    appendCited cite 0 pub = pub := by
  simp [appendCited]

/-- Appending one copy. -/
theorem appendCited_one (cite : Citer) (pub : Publication) :
    appendCited cite 1 pub = { pub with cited_by := pub.cited_by ++ [cite] } := by
  simp [appendCited]

/-- Appended copies accumulate. -/
theorem appendCited_add (cite : Citer) (m n : Nat) (pub : Publication) :
    appendCited cite n (appendCited cite m pub) =
      appendCited cite (m + n) pub := by
  simp only [appendCited]
  rw [List.append_assoc, ← List.replicate_add]

/-- Appending no citers is the identity. -/
theorem appendCiters_nil (pub : Publication) : appendCiters [] pub = pub := by
  simp [appendCiters]

/-- Appended citer lists accumulate. -/
theorem appendCiters_append (cs1 cs2 : List Citer) (pub : Publication) :
    appendCiters cs2 (appendCiters cs1 pub) =
      appendCiters (cs1 ++ cs2) pub := by
  simp [appendCiters, List.append_assoc]

/-- Replicated copies as a citer list. -/
theorem appendCited_eq_appendCiters (cite : Citer) (n : Nat)
    (pub : Publication) :
    appendCited cite n pub = appendCiters (List.replicate n cite) pub := rfl

/-- Processing one citer's citation list appends to the entry at `k0` one
copy of the citer per cited DOI matching `k0`, and keeps the keys. -/
theorem citeFold_entry (cite : Citer) (k0 : DOI) :
    ∀ (ds : List DOI) (m : List (DOI × Publication)) (pub : Publication),
      (m.map (·.1)).Pairwise (fun x y => DOI.eqPy x y = false) →
      (k0, pub) ∈ m →
      ((k0, appendCited cite (ds.countP (fun d => DOI.eqPy k0 d)) pub) ∈
        ds.foldl (citeOne cite) m) ∧
      (ds.foldl (citeOne cite) m).map (·.1) = m.map (·.1) := by
  intro ds
  induction ds with
  | nil =>
      intro m pub hpw hmem
      exact ⟨by simpa [appendCited_zero] using hmem, rfl⟩
  | cons d ds ih =>
      intro m pub hpw hmem
      rw [List.foldl_cons]
      have hkeys := citeOne_keys cite m d
      have hpw2 : ((citeOne cite m d).map (·.1)).Pairwise
          (fun x y => DOI.eqPy x y = false) := by
        rw [hkeys]; exact hpw
      by_cases hd : DOI.eqPy k0 d = true
      · have hstep := citeOne_hit cite m d k0 pub hpw hmem hd
        have hstep2 : (k0, appendCited cite 1 pub) ∈ citeOne cite m d := by
          rw [appendCited_one]; exact hstep
        have IH := ih (citeOne cite m d) (appendCited cite 1 pub) hpw2 hstep2
        refine ⟨?_, IH.2.trans hkeys⟩
        have hmem2 := IH.1
        rw [appendCited_add] at hmem2
        have hcnt : (d :: ds).countP (fun d2 => DOI.eqPy k0 d2) =
            1 + ds.countP (fun d2 => DOI.eqPy k0 d2) := by
          rw [List.countP_cons]
          simp [hd, Nat.add_comm]
        rw [hcnt]
        exact hmem2
      · have hstep := citeOne_miss cite m d k0 pub hmem (by simpa using hd)
        have IH := ih (citeOne cite m d) pub hpw2 hstep
        refine ⟨?_, IH.2.trans hkeys⟩
        have hcnt : (d :: ds).countP (fun d2 => DOI.eqPy k0 d2) =
            ds.countP (fun d2 => DOI.eqPy k0 d2) := by
          rw [List.countP_cons]
          simp [hd]
        rw [hcnt]
        exact IH.1

/-- Processing all citing publications appends to the entry at `k0` exactly
the citers matching `k0`, in order, and keeps the keys. -/
theorem citeStepFold_entry (k0 : DOI) :
    ∀ (cs : List Citer) (m : List (DOI × Publication)) (pub : Publication),
      (m.map (·.1)).Pairwise (fun x y => DOI.eqPy x y = false) →
      (k0, pub) ∈ m →
      ((k0, appendCiters (citersFor k0 cs) pub) ∈ cs.foldl citeStep m) ∧
      (cs.foldl citeStep m).map (·.1) = m.map (·.1) := by
  intro cs
  induction cs with
  | nil =>
      intro m pub hpw hmem
      refine ⟨?_, rfl⟩
      rw [show citersFor k0 [] = [] from rfl, appendCiters_nil]
      exact hmem
  | cons c cs ih =>
      intro m pub hpw hmem
      rw [List.foldl_cons]
      have hin := citeFold_entry c k0 c.citations m pub hpw hmem
      have hk1 : (citeStep m c).map (·.1) = m.map (·.1) := by
        rw [citeStep]; exact hin.2
      have hpw2 : ((citeStep m c).map (·.1)).Pairwise
          (fun x y => DOI.eqPy x y = false) := by
        rw [hk1]; exact hpw
      have hmem1 : (k0, appendCited c
          (c.citations.countP (fun d => DOI.eqPy k0 d)) pub) ∈ citeStep m c := by
        rw [citeStep]; exact hin.1
      have IH := ih (citeStep m c)
        (appendCited c (c.citations.countP (fun d => DOI.eqPy k0 d)) pub)
        hpw2 hmem1
      refine ⟨?_, IH.2.trans hk1⟩
      have hmem2 := IH.1
      rw [appendCited_eq_appendCiters, appendCiters_append] at hmem2
      have hfor : List.replicate
          (c.citations.countP (fun d => DOI.eqPy k0 d)) c ++
            citersFor k0 cs = citersFor k0 (c :: cs) := by
        simp [citersFor]
      rw [hfor] at hmem2
      exact hmem2

/-- Processing one citer's citation list never clears a stored DOI. -/
theorem citeFold_doi (cite : Citer) :
    ∀ (ds : List DOI) (m : List (DOI × Publication)),
      (∀ p ∈ m, p.2.doi ≠ none) →
      ∀ p ∈ ds.foldl (citeOne cite) m, p.2.doi ≠ none := by
  intro ds
  induction ds with
  | nil => intro m h; exact h
  | cons d ds ih =>
      intro m h
      rw [List.foldl_cons]
      exact ih _ (citeOne_doi cite m d h)

/-- Processing all citers never clears a stored DOI. -/
theorem citeStepFold_doi :
    ∀ (cs : List Citer) (m : List (DOI × Publication)),
      (∀ p ∈ m, p.2.doi ≠ none) →
      ∀ p ∈ cs.foldl citeStep m, p.2.doi ≠ none := by
  intro cs
  induction cs with
  | nil => intro m h; exact h
  | cons c cs ih =>
      intro m h
      rw [List.foldl_cons]
      exact ih _ (fun p hp => citeFold_doi c c.citations m h p hp)

/-- `indexAdd` skips a candidate with no DOI. -/
theorem indexAdd_none (m : List (DOI × Publication)) (q : Publication)
    (hq : q.doi = none) : indexAdd m q = m := by
  rw [indexAdd, hq]

/-- `indexAdd` inserts a candidate under its DOI. -/
theorem indexAdd_some (m : List (DOI × Publication)) (q : Publication)
    (d : DOI) (hq : q.doi = some d) : indexAdd m q = indexInsert m d q := by
  rw [indexAdd, hq]

/-- `indexInsert` preserves pairwise-distinct keys. -/
theorem indexInsert_keysOk (m : List (DOI × Publication)) (k : DOI)
    (v : Publication)
    (h : (m.map (·.1)).Pairwise (fun x y => DOI.eqPy x y = false)) :
    ((indexInsert m k v).map (·.1)).Pairwise
      (fun x y => DOI.eqPy x y = false) := by
  rw [indexInsert]
  by_cases hc : m.any (fun p => DOI.eqPy p.1 k) = true
  · rw [if_pos hc]
    have hkeys : (m.map (fun p => if DOI.eqPy p.1 k then (p.1, v) else p)).map
        (·.1) = m.map (·.1) := by
      rw [List.map_map]
      apply List.map_congr_left
      intro p _
      by_cases hp : DOI.eqPy p.1 k = true <;> simp [hp]
    rw [hkeys]
    exact h
  · rw [if_neg hc, List.map_append, List.pairwise_append]
    refine ⟨h, by simp, ?_⟩
    intro x hx y hy
    have hy2 : y = k := by simpa using hy
    subst hy2
    rcases List.mem_map.mp hx with ⟨q, hq, hqe⟩
    have hq3 : ¬ DOI.eqPy q.1 y = true :=
      fun hcc => hc (List.any_eq_true.mpr ⟨q, hq, hcc⟩)
    rw [← hqe]
    exact Bool.eq_false_iff.mpr hq3

/-- `indexInsert` of a DOI-carrying value preserves the value invariant. -/
theorem indexInsert_doi (m : List (DOI × Publication)) (k : DOI)
    (v : Publication) (hv : v.doi ≠ none)
    (h : ∀ p ∈ m, p.2.doi ≠ none) :
    ∀ p ∈ indexInsert m k v, p.2.doi ≠ none := by
  intro p hp
  rw [indexInsert] at hp
  by_cases hc : m.any (fun p => DOI.eqPy p.1 k) = true
  · rw [if_pos hc] at hp
    rcases List.mem_map.mp hp with ⟨q, hq, hqe⟩
    by_cases hqk : DOI.eqPy q.1 k = true
    · rw [← hqe]
      simp only [hqk, if_true]
      exact hv
    · rw [← hqe]
      simp only [hqk, if_false]
      exact h q hq
  · rw [if_neg hc] at hp
    rcases List.mem_append.mp hp with h2 | h2
    · exact h p h2
    · have h3 := List.mem_singleton.mp h2
      rw [h3]
      exact hv

/-- The DOI index has pairwise-distinct keys and every stored candidate
carries a DOI. -/
theorem buildDoiIndex_inv (pubs : List Publication) :
    ((buildDoiIndex pubs).map (·.1)).Pairwise
      (fun x y => DOI.eqPy x y = false) ∧
    ∀ p ∈ buildDoiIndex pubs, p.2.doi ≠ none := by
  rw [buildDoiIndex]
  suffices hgen : ∀ (l : List Publication) (m : List (DOI × Publication)),
      (m.map (·.1)).Pairwise (fun x y => DOI.eqPy x y = false) →
      (∀ p ∈ m, p.2.doi ≠ none) →
      ((l.foldl indexAdd m).map (·.1)).Pairwise
        (fun x y => DOI.eqPy x y = false) ∧
      ∀ p ∈ l.foldl indexAdd m, p.2.doi ≠ none by
    exact hgen pubs [] (by simp) (by simp)
  intro l
  induction l with
  | nil => intro m h1 h2; exact ⟨h1, h2⟩
  | cons q l ih =>
      intro m h1 h2
      rw [List.foldl_cons]
      cases hq : q.doi with
      | none =>
          rw [indexAdd_none m q hq]
          exact ih m h1 h2
      | some d =>
          rw [indexAdd_some m q d hq]
          refine ih _ (indexInsert_keysOk m d q h1) ?_
          refine indexInsert_doi m d q ?_ h2
          rw [hq]
          simp

/-- Key presence in the index survives further insertions. -/
theorem foldl_indexAdd_key_pres (d : DOI) :
    ∀ (l : List Publication) (m : List (DOI × Publication)),
      (∃ e ∈ m, DOI.eqPy e.1 d = true) →
      ∃ e ∈ l.foldl indexAdd m, DOI.eqPy e.1 d = true := by
  intro l
  induction l with
  | nil => intro m h; exact h
  | cons q l ih =>
      intro m h
      rw [List.foldl_cons]
      apply ih
      cases hq : q.doi with
      | none => rw [indexAdd_none m q hq]; exact h
      | some d2 =>
          rw [indexAdd_some m q d2 hq, indexInsert]
          by_cases hc : m.any (fun p => DOI.eqPy p.1 d2) = true
          · rw [if_pos hc]
            obtain ⟨e, he, hed⟩ := h
            have hfe : ((fun p : DOI × Publication =>
                if DOI.eqPy p.1 d2 then (p.1, q) else p) e).1 = e.1 := by
              by_cases he2 : DOI.eqPy e.1 d2 = true <;> simp [he2]
            exact ⟨_, List.mem_map_of_mem _ he, by rw [hfe]; exact hed⟩
          · rw [if_neg hc]
            obtain ⟨e, he, hed⟩ := h
            exact ⟨e, List.mem_append.mpr (Or.inl he), hed⟩

/-- A candidate with a DOI leaves an index entry whose key matches it. -/
theorem buildDoiIndex_mem_key (pubs : List Publication) (p : Publication)
    (d : DOI) (hp : p ∈ pubs) (hd : p.doi = some d) :
    ∃ e ∈ buildDoiIndex pubs, DOI.eqPy e.1 d = true := by
  rw [buildDoiIndex]
  suffices hgen : ∀ (l : List Publication) (m : List (DOI × Publication)),
      p ∈ l → ∃ e ∈ l.foldl indexAdd m, DOI.eqPy e.1 d = true by
    exact hgen pubs [] hp
  intro l
  induction l with
  | nil => intro m h; cases h
  | cons q l ih =>
      intro m hmem
      rw [List.foldl_cons]
      rcases List.mem_cons.mp hmem with he | ht
      · apply foldl_indexAdd_key_pres d l
        rw [indexAdd_some m q d (by rw [← he]; exact hd), indexInsert]
        by_cases hc : m.any (fun p2 => DOI.eqPy p2.1 d) = true
        · rw [if_pos hc]
          obtain ⟨e, he2, hed⟩ := List.any_eq_true.mp hc
          have hfe : (fun p2 : DOI × Publication =>
              if DOI.eqPy p2.1 d then (p2.1, q) else p2) e = (e.1, q) := by
            simp [hed]
          exact ⟨(e.1, q), by rw [← hfe]; exact List.mem_map_of_mem _ he2, hed⟩
        · rw [if_neg hc]
          exact ⟨(d, q), List.mem_append.mpr (Or.inr (by simp)),
            DOI.eqPy_refl d⟩
      · exact ih _ ht

/-- C7: the output of `add_cited_by` never contains a candidate without a
DOI; and for every candidate carrying a DOI there is one output record that
collects, in its cited-by list, every citing publication whose citation list
contains that DOI (under DOI equality) — in particular two different citing
publications both citing it accumulate on that record. -/
theorem C7_add_cited_by (pubs : List Publication) (citers : List Citer) :
    (∀ o ∈ add_cited_by pubs citers, o.doi ≠ none) ∧
    (∀ p ∈ pubs, ∀ d, p.doi = some d →
      ∃ o ∈ add_cited_by pubs citers,
        ∀ c ∈ citers, (∃ x ∈ c.citations, DOI.eqPy x d = true) →
          c ∈ o.cited_by) := by
  obtain ⟨hpw, hdoi⟩ := buildDoiIndex_inv pubs
  constructor
  · intro o ho
    rw [add_cited_by] at ho
    rcases List.mem_map.mp ho with ⟨e, he, hee⟩
    rw [← hee]
    exact citeStepFold_doi citers (buildDoiIndex pubs) hdoi e he
  · intro p hp d hd
    obtain ⟨e, he, hek⟩ := buildDoiIndex_mem_key pubs p d hp hd
    obtain ⟨k0, pub0⟩ := e
    have hfin := citeStepFold_entry k0 citers (buildDoiIndex pubs) pub0 hpw he
    refine ⟨appendCiters (citersFor k0 citers) pub0, ?_, ?_⟩
    · rw [add_cited_by]
      exact List.mem_map_of_mem (·.2) hfin.1
    · intro c hc hex
      obtain ⟨x, hx, hxd⟩ := hex
      show c ∈ (appendCiters (citersFor k0 citers) pub0).cited_by
      rw [appendCiters]
      apply List.mem_append.mpr
      right
      rw [citersFor, List.mem_flatten]
      refine ⟨List.replicate
        (c.citations.countP (fun d2 => DOI.eqPy k0 d2)) c,
        List.mem_map_of_mem _ hc, ?_⟩
      rw [List.mem_replicate]
      refine ⟨?_, rfl⟩
      have hcnt : 0 < c.citations.countP (fun d2 => DOI.eqPy k0 d2) := by
        rw [List.countP_pos_iff]
        exact ⟨x, hx, DOI.eqPy_trans hek (DOI.eqPy_symm hxd)⟩
      omega

/-- Witness for C7: one candidate with a DOI, cited by two citing
publications; the output record keeps its DOI. -/
theorem C7_add_cited_by_witness :
    (⟨"WOS:2", "T", 2020, ⟨"J", [], []⟩, some ⟨"10", "1016", "j.a"⟩, none,
        none, [⟨"c1", [⟨"10", "1016", "j.a"⟩]⟩, ⟨"c2", [⟨"10", "1016", "j.a"⟩]⟩]⟩ :
      Publication).doi ≠ none :=
  (C7_add_cited_by
    [⟨"WOS:2", "T", 2020, ⟨"J", [], []⟩, some ⟨"10", "1016", "j.a"⟩, none,
      none, []⟩]
    [⟨"c1", [⟨"10", "1016", "j.a"⟩]⟩, ⟨"c2", [⟨"10", "1016", "j.a"⟩]⟩]).1
    ⟨"WOS:2", "T", 2020, ⟨"J", [], []⟩, some ⟨"10", "1016", "j.a"⟩, none,
      none, [⟨"c1", [⟨"10", "1016", "j.a"⟩]⟩, ⟨"c2", [⟨"10", "1016", "j.a"⟩]⟩]⟩
    (by decide)

end UvtScholarly
